import Mathlib

/-!
Shallow embedding of the `bin` property-tree codec of RustyLeague
(`src/io/bin.rs`, with the primitive stream collaborators of
`src/io/binary_reader.rs`, `src/io/binary_writer.rs`,
`src/structures/color.rs`, `src/structures/vector{2,3,4}.rs` and the
hashing adapter of `src/utilities/hashing.rs`).

Modelling conventions:
* A byte stream is a `List Nat`; reads consume from the front.  `read_exact`
  failing at end of stream (Rust `ErrorKind::UnexpectedEof`, the spec's
  TruncatedInput) is `BinErr.eof`; an `io::Error` of kind `InvalidData` is
  `BinErr.invalidData`; a Rust `panic!`/`expect` (process abort, not a
  recoverable `io::Result`) is `BinErr.fatal`.
* Machine integers are `Nat` bit patterns with explicit `% 2^w` where the
  code casts (`as u8`, `as u16`, `as u32`).  Signed payloads (`i8`..`i64`)
  are carried as their two's-complement bit patterns: `read_iN`/`write_iN`
  move exactly the same bytes as `read_uN`/`write_uN`, and the derived
  `PartialEq` on `iN` coincides with bit-pattern equality.
* `f32` payloads are carried as their 4-byte little-endian bit patterns
  (`read_f32`/`write_f32` only move bits, no arithmetic touches them).
  Equality on them is bit equality.
* The `Color` payload is carried as the four raw channel bytes.  The code
  stores `byte as f32 / 255.0` on decode and emits
  `(component * 255.0) as u8` (truncating) on encode; for every byte
  `b ∈ 0..=255` the IEEE-754 binary32 computation
  `trunc(fl(fl(b / 255) * 255)) = b` holds (an exhaustively checkable
  256-case fact), and `b ↦ fl(b/255)` is injective on that range, so the
  byte quadruple is a faithful representation of the stored `LinSrgba`.
* A Rust `String` is its list of UTF-8 bytes; `String::from_utf8`
  validation is the executable `utf8Valid` below.
* `HashMap<BinValue, BinValue>` is an association list in insertion order;
  `insert` replaces the value of an existing equal key in place (keeping
  the stored key, as Rust does) and appends a fresh key.  Iteration order
  of a Rust `HashMap` is unspecified; the list order is one admissible
  order, and all statements about map contents are order-insensitive or
  are stated against this fixed order.
-/

/-- Decode/encode outcome errors.  `eof` models `ErrorKind::UnexpectedEof`
from `read_exact` (the spec's TruncatedInput); `invalidData` models
`io::Error::new(ErrorKind::InvalidData, msg)`; `fatal` models a Rust
`panic!`/`.expect(msg)`, which aborts the process and is not a recoverable
`io::Result` error. -/
inductive BinErr where
  | eof
  | invalidData (msg : String)
  | fatal (msg : String)
deriving DecidableEq, Repr

/-- `true` iff the outcome is a recoverable `io::Result` error (as opposed
to a process-aborting panic). -/
def BinErr.isRecoverable : BinErr → Bool
  | .fatal _ => false
  | _ => true

/-- `BinaryReader::read_u8` (`binary_reader.rs:48`): one byte or eof. -/
def rdU8 (bs : List Nat) : Except BinErr (Nat × List Nat) :=
  match bs with
  | [] => .error .eof
  | b :: r => .ok (b % 256, r)

/-- `BinaryReader::read_u16` (`binary_reader.rs:62`): two little-endian
bytes or eof.  `read_i16` moves the same bytes (the payload is the bit
pattern). -/
def rdU16 (bs : List Nat) : Except BinErr (Nat × List Nat) :=
  match bs with
  | b0 :: b1 :: r => .ok (b0 % 256 + 2^8 * (b1 % 256), r)
  | _ => .error .eof

/-- `BinaryReader::read_u32` (`binary_reader.rs:76`); also the byte moves
of `read_i32` and `read_f32`, whose results are carried as bit patterns. -/
def rdU32 (bs : List Nat) : Except BinErr (Nat × List Nat) :=
  match bs with
  | b0 :: b1 :: b2 :: b3 :: r =>
      .ok (b0 % 256 + 2^8 * (b1 % 256) + 2^16 * (b2 % 256) + 2^24 * (b3 % 256), r)
  | _ => .error .eof

/-- `BinaryReader::read_u64` (`binary_reader.rs:90`); also `read_i64`. -/
def rdU64 (bs : List Nat) : Except BinErr (Nat × List Nat) :=
  match bs with
  | b0 :: b1 :: b2 :: b3 :: b4 :: b5 :: b6 :: b7 :: r =>
      .ok (b0 % 256 + 2^8 * (b1 % 256) + 2^16 * (b2 % 256) + 2^24 * (b3 % 256)
            + 2^32 * (b4 % 256) + 2^40 * (b5 % 256) + 2^48 * (b6 % 256)
            + 2^56 * (b7 % 256), r)
  | _ => .error .eof

/-- `BinaryReader::read_bytes` (`binary_reader.rs:112`): `read_exact` into
a buffer of the requested size. -/
def rdBytes (n : Nat) (bs : List Nat) : Except BinErr (List Nat × List Nat) :=
  if n ≤ bs.length then .ok (bs.take n, bs.drop n) else .error .eof

/-- UTF-8 validity of a byte sequence, as checked by `String::from_utf8`
(RFC 3629: no overlong forms, no surrogates, range ≤ U+10FFFF). -/
def utf8Valid : List Nat → Bool
  | [] => true
  | b :: rest =>
    if b < 0x80 then utf8Valid rest
    else if 0xC2 ≤ b ∧ b ≤ 0xDF then
      match rest with
      | c1 :: r => (0x80 ≤ c1 && c1 ≤ 0xBF) && utf8Valid r
      | _ => false
    else if b = 0xE0 then
      match rest with
      | c1 :: c2 :: r =>
          (0xA0 ≤ c1 && c1 ≤ 0xBF) && (0x80 ≤ c2 && c2 ≤ 0xBF) && utf8Valid r
      | _ => false
    else if (0xE1 ≤ b ∧ b ≤ 0xEC) ∨ b = 0xEE ∨ b = 0xEF then
      match rest with
      | c1 :: c2 :: r =>
          (0x80 ≤ c1 && c1 ≤ 0xBF) && (0x80 ≤ c2 && c2 ≤ 0xBF) && utf8Valid r
      | _ => false
    else if b = 0xED then
      match rest with
      | c1 :: c2 :: r =>
          (0x80 ≤ c1 && c1 ≤ 0x9F) && (0x80 ≤ c2 && c2 ≤ 0xBF) && utf8Valid r
      | _ => false
    else if b = 0xF0 then
      match rest with
      | c1 :: c2 :: c3 :: r =>
          (0x90 ≤ c1 && c1 ≤ 0xBF) && (0x80 ≤ c2 && c2 ≤ 0xBF)
            && (0x80 ≤ c3 && c3 ≤ 0xBF) && utf8Valid r
      | _ => false
    else if 0xF1 ≤ b ∧ b ≤ 0xF3 then
      match rest with
      | c1 :: c2 :: c3 :: r =>
          (0x80 ≤ c1 && c1 ≤ 0xBF) && (0x80 ≤ c2 && c2 ≤ 0xBF)
            && (0x80 ≤ c3 && c3 ≤ 0xBF) && utf8Valid r
      | _ => false
    else if b = 0xF4 then
      match rest with
      | c1 :: c2 :: c3 :: r =>
          (0x80 ≤ c1 && c1 ≤ 0x8F) && (0x80 ≤ c2 && c2 ≤ 0xBF)
            && (0x80 ≤ c3 && c3 ≤ 0xBF) && utf8Valid r
      | _ => false
    else false

/-- `BinaryReader::read_string` (`binary_reader.rs:119`): read `n` raw
bytes, then validate them as UTF-8 (`String::from_utf8`); a validation
failure becomes an `InvalidData` io error. -/
def rdStringN (n : Nat) (bs : List Nat) : Except BinErr (List Nat × List Nat) :=
  match rdBytes n bs with
  | .error e => .error e
  | .ok (s, r) => if utf8Valid s then .ok (s, r) else .error (.invalidData "invalid utf-8")

/-- `u8::to_le_bytes` of `n as u8` (`BinaryWriter::write_u8`). -/
def u8LE (n : Nat) : List Nat := [n % 256]

/-- `u16::to_le_bytes` of `n as u16` (`BinaryWriter::write_u16`); also the
bytes of `write_i16` on the same bit pattern. -/
def u16LE (n : Nat) : List Nat := [n % 256, n / 2^8 % 256]

/-- `u32::to_le_bytes` of `n as u32` (`BinaryWriter::write_u32`); also the
bytes of `write_i32`/`write_f32` on the same bit pattern. -/
def u32LE (n : Nat) : List Nat := [n % 256, n / 2^8 % 256, n / 2^16 % 256, n / 2^24 % 256]

/-- `u64::to_le_bytes` of `n as u64` (`BinaryWriter::write_u64`). -/
def u64LE (n : Nat) : List Nat :=
  [n % 256, n / 2^8 % 256, n / 2^16 % 256, n / 2^24 % 256,
   n / 2^32 % 256, n / 2^40 % 256, n / 2^48 % 256, n / 2^56 % 256]

/-- The 26 wire value kinds (`BinValueType`, `bin.rs:62`), discriminants
0–25 as assigned by the source enum. -/
inductive BinValueType where
  | none
  | boolean
  | sbyte
  | byte
  | int16
  | uint16
  | int32
  | uint32
  | int64
  | uint64
  | float
  | vector2
  | vector3
  | vector4
  | matrix44
  | color
  | string
  | hash
  | container
  | container2
  | struct
  | embedded
  | link
  | optional
  | map
  | flagsBoolean
deriving DecidableEq, Repr

/-- `ToPrimitive::to_u8`: the enum discriminant (`bin.rs:62-90`). -/
def BinValueType.toU8 : BinValueType → Nat
  | .none => 0
  | .boolean => 1
  | .sbyte => 2
  | .byte => 3
  | .int16 => 4
  | .uint16 => 5
  | .int32 => 6
  | .uint32 => 7
  | .int64 => 8
  | .uint64 => 9
  | .float => 10
  | .vector2 => 11
  | .vector3 => 12
  | .vector4 => 13
  | .matrix44 => 14
  | .color => 15
  | .string => 16
  | .hash => 17
  | .container => 18
  | .container2 => 19
  | .struct => 20
  | .embedded => 21
  | .link => 22
  | .optional => 23
  | .map => 24
  | .flagsBoolean => 25

/-- `FromPrimitive::from_u8`: inverse of the discriminant map, `none` for
anything outside 0–25. -/
def BinValueType.fromU8 : Nat → Option BinValueType
  | 0 => some .none
  | 1 => some .boolean
  | 2 => some .sbyte
  | 3 => some .byte
  | 4 => some .int16
  | 5 => some .uint16
  | 6 => some .int32
  | 7 => some .uint32
  | 8 => some .int64
  | 9 => some .uint64
  | 10 => some .float
  | 11 => some .vector2
  | 12 => some .vector3
  | 13 => some .vector4
  | 14 => some .matrix44
  | 15 => some .color
  | 16 => some .string
  | 17 => some .hash
  | 18 => some .container
  | 19 => some .container2
  | 20 => some .struct
  | 21 => some .embedded
  | 22 => some .link
  | 23 => some .optional
  | 24 => some .map
  | 25 => some .flagsBoolean
  | _ + 26 => Option.none

/-- `BinValue::unpack_value_type` (`bin.rs:390-398`): if the top bit of the
tag byte is set, clear it and add 18; then look the index up.  The lookup
is `.expect("Invalid Value type")`, i.e. a panic (`BinErr.fatal`), not a
recoverable io error. -/
def unpackValueType (b : Nat) : Except BinErr BinValueType :=
  let b' := b % 256
  let idx := if 128 ≤ b' then b' - 128 + 18 else b'
  match BinValueType.fromU8 idx with
  | some ty => .ok ty
  | Option.none => .error (.fatal "Invalid Value type")

/-- `BinValue::pack_value_type` (`bin.rs:399-408`): discriminants ≥ 18 get
128 added after subtracting 18 (the high-bit namespace switch). -/
def packValueType (ty : BinValueType) : Nat :=
  let v := ty.toU8
  if 18 ≤ v then v - 18 + 128 else v

/-- `Vector2` (`structures/vector2.rs`): two `f32` fields, carried as bit
patterns; `mem::size_of::<Vector2>() = 8`. -/
structure FVec2 where
  x : Nat
  y : Nat
deriving DecidableEq, Repr

/-- `Vector3` (`structures/vector3.rs`): `mem::size_of::<Vector3>() = 12`. -/
structure FVec3 where
  x : Nat
  y : Nat
  z : Nat
deriving DecidableEq, Repr

/-- `Vector4` (`structures/vector4.rs`): `mem::size_of::<Vector4>() = 16`. -/
structure FVec4 where
  x : Nat
  y : Nat
  z : Nat
  w : Nat
deriving DecidableEq, Repr

/-- `[[f32; 4]; 4]` read/written row by row (`bin.rs:262-272, 357-363`);
16 bit patterns, `mem::size_of = 64`. -/
structure FMat44 where
  m00 : Nat
  m01 : Nat
  m02 : Nat
  m03 : Nat
  m10 : Nat
  m11 : Nat
  m12 : Nat
  m13 : Nat
  m20 : Nat
  m21 : Nat
  m22 : Nat
  m23 : Nat
  m30 : Nat
  m31 : Nat
  m32 : Nat
  m33 : Nat
deriving DecidableEq, Repr

/-- The stored `LinSrgba` of a Color node, represented by the four raw
channel bytes (see the header comment: `read_rgba_u8` stores `b/255.0f32`
per channel and `write_rgba_u8` recovers exactly `b`, so the bytes are a
faithful representation). -/
structure FColor where
  r : Nat
  g : Nat
  b : Nat
  a : Nat
deriving DecidableEq, Repr

mutual
/-- `BinValue` (`bin.rs:32-60`): the recursive tagged union.  Every
variant carries its 32-bit `name`; payloads follow the source types under
the conventions in the header comment. -/
inductive BinValue where
  | none (name : Nat)
  | boolean (name : Nat) (value : Bool)
  | sbyte (name : Nat) (value : Nat)
  | byte (name : Nat) (value : Nat)
  | int16 (name : Nat) (value : Nat)
  | uint16 (name : Nat) (value : Nat)
  | int32 (name : Nat) (value : Nat)
  | uint32 (name : Nat) (value : Nat)
  | int64 (name : Nat) (value : Nat)
  | uint64 (name : Nat) (value : Nat)
  | float (name : Nat) (value : Nat)
  | vector2 (name : Nat) (value : FVec2)
  | vector3 (name : Nat) (value : FVec3)
  | vector4 (name : Nat) (value : FVec4)
  | matrix44 (name : Nat) (value : FMat44)
  | color (name : Nat) (value : FColor)
  | string (name : Nat) (value : List Nat)
  | hash (name : Nat) (value : Nat)
  | container (name : Nat) (value : BinContainer)
  | container2 (name : Nat) (value : BinContainer)
  | struct (name : Nat) (value : BinStructure)
  | embedded (name : Nat) (value : BinStructure)
  | link (name : Nat) (value : Nat)
  | optional (name : Nat) (valueType : BinValueType) (value : Option BinValue)
  | map (name : Nat) (value : BinMap)
  | flagsBoolean (name : Nat) (value : Bool)

/-- `BinStructure` (`bin.rs:92-96`). -/
inductive BinStructure where
  | mk (name : Nat) (fields : List BinValue)

/-- `BinContainer` (`bin.rs:98-102`). -/
inductive BinContainer where
  | mk (valueType : BinValueType) (values : List BinValue)

/-- `BinMap` (`bin.rs:104-109`); the `HashMap` is an association list in
insertion order (see header comment). -/
inductive BinMap where
  | mk (keyType : BinValueType) (valueType : BinValueType)
       (entries : List (BinValue × BinValue))
end

def BinStructure.name : BinStructure → Nat
  | .mk n _ => n

def BinStructure.fields : BinStructure → List BinValue
  | .mk _ f => f

def BinContainer.valueType : BinContainer → BinValueType
  | .mk t _ => t

def BinContainer.values : BinContainer → List BinValue
  | .mk _ v => v

def BinMap.keyType : BinMap → BinValueType
  | .mk k _ _ => k

def BinMap.valueType : BinMap → BinValueType
  | .mk _ v _ => v

def BinMap.entries : BinMap → List (BinValue × BinValue)
  | .mk _ _ e => e

/-- The `name` field common to all `BinValue` variants. -/
def BinValue.nameOf : BinValue → Nat
  | .none n => n
  | .boolean n _ => n
  | .sbyte n _ => n
  | .byte n _ => n
  | .int16 n _ => n
  | .uint16 n _ => n
  | .int32 n _ => n
  | .uint32 n _ => n
  | .int64 n _ => n
  | .uint64 n _ => n
  | .float n _ => n
  | .vector2 n _ => n
  | .vector3 n _ => n
  | .vector4 n _ => n
  | .matrix44 n _ => n
  | .color n _ => n
  | .string n _ => n
  | .hash n _ => n
  | .container n _ => n
  | .container2 n _ => n
  | .struct n _ => n
  | .embedded n _ => n
  | .link n _ => n
  | .optional n _ _ => n
  | .map n _ => n
  | .flagsBoolean n _ => n

/-- `BinValue::value_type` (`bin.rs:410-439`). -/
def BinValue.valueTypeOf : BinValue → BinValueType
  | .none _ => .none
  | .boolean _ _ => .boolean
  | .sbyte _ _ => .sbyte
  | .byte _ _ => .byte
  | .int16 _ _ => .int16
  | .uint16 _ _ => .uint16
  | .int32 _ _ => .int32
  | .uint32 _ _ => .uint32
  | .int64 _ _ => .int64
  | .uint64 _ _ => .uint64
  | .float _ _ => .float
  | .vector2 _ _ => .vector2
  | .vector3 _ _ => .vector3
  | .vector4 _ _ => .vector4
  | .matrix44 _ _ => .matrix44
  | .color _ _ => .color
  | .string _ _ => .string
  | .hash _ _ => .hash
  | .container _ _ => .container
  | .container2 _ _ => .container2
  | .struct _ _ => .struct
  | .embedded _ _ => .embedded
  | .link _ _ => .link
  | .optional _ _ _ => .optional
  | .map _ _ => .map
  | .flagsBoolean _ _ => .flagsBoolean

mutual
/-- The derived `PartialEq`/`Eq` on `BinValue` (`#[derive(PartialEq)]`,
`bin.rs:32`; `impl Eq`, `bin.rs:642`).  Strings compare byte for byte
(case-sensitively); numeric and `f32` payloads compare as bit patterns;
map payloads compare through the association list (see header comment). -/
def beqValue : BinValue → BinValue → Bool
  | .none n1, .none n2 => n1 == n2
  | .boolean n1 v1, .boolean n2 v2 => n1 == n2 && v1 == v2
  | .sbyte n1 v1, .sbyte n2 v2 => n1 == n2 && v1 == v2
  | .byte n1 v1, .byte n2 v2 => n1 == n2 && v1 == v2
  | .int16 n1 v1, .int16 n2 v2 => n1 == n2 && v1 == v2
  | .uint16 n1 v1, .uint16 n2 v2 => n1 == n2 && v1 == v2
  | .int32 n1 v1, .int32 n2 v2 => n1 == n2 && v1 == v2
  | .uint32 n1 v1, .uint32 n2 v2 => n1 == n2 && v1 == v2
  | .int64 n1 v1, .int64 n2 v2 => n1 == n2 && v1 == v2
  | .uint64 n1 v1, .uint64 n2 v2 => n1 == n2 && v1 == v2
  | .float n1 v1, .float n2 v2 => n1 == n2 && v1 == v2
  | .vector2 n1 v1, .vector2 n2 v2 => n1 == n2 && v1 == v2
  | .vector3 n1 v1, .vector3 n2 v2 => n1 == n2 && v1 == v2
  | .vector4 n1 v1, .vector4 n2 v2 => n1 == n2 && v1 == v2
  | .matrix44 n1 v1, .matrix44 n2 v2 => n1 == n2 && v1 == v2
  | .color n1 v1, .color n2 v2 => n1 == n2 && v1 == v2
  | .string n1 v1, .string n2 v2 => n1 == n2 && v1 == v2
  | .hash n1 v1, .hash n2 v2 => n1 == n2 && v1 == v2
  | .container n1 v1, .container n2 v2 => n1 == n2 && beqContainer v1 v2
  | .container2 n1 v1, .container2 n2 v2 => n1 == n2 && beqContainer v1 v2
  | .struct n1 v1, .struct n2 v2 => n1 == n2 && beqStruct v1 v2
  | .embedded n1 v1, .embedded n2 v2 => n1 == n2 && beqStruct v1 v2
  | .link n1 v1, .link n2 v2 => n1 == n2 && v1 == v2
  | .optional n1 t1 v1, .optional n2 t2 v2 => n1 == n2 && t1 == t2 && beqOptValue v1 v2
  | .map n1 v1, .map n2 v2 => n1 == n2 && beqMap v1 v2
  | .flagsBoolean n1 v1, .flagsBoolean n2 v2 => n1 == n2 && v1 == v2
  | _, _ => false

def beqOptValue : Option BinValue → Option BinValue → Bool
  | Option.none, Option.none => true
  | some a, some b => beqValue a b
  | _, _ => false

def beqStruct : BinStructure → BinStructure → Bool
  | .mk n1 f1, .mk n2 f2 => n1 == n2 && beqValueList f1 f2

def beqContainer : BinContainer → BinContainer → Bool
  | .mk t1 v1, .mk t2 v2 => t1 == t2 && beqValueList v1 v2

def beqMap : BinMap → BinMap → Bool
  | .mk k1 v1 e1, .mk k2 v2 e2 => k1 == k2 && v1 == v2 && beqPairList e1 e2

def beqValueList : List BinValue → List BinValue → Bool
  | [], [] => true
  | a :: as', b :: bs' => beqValue a b && beqValueList as' bs'
  | _, _ => false

def beqPairList : List (BinValue × BinValue) → List (BinValue × BinValue) → Bool
  | [], [] => true
  | (k1, v1) :: as', (k2, v2) :: bs' =>
      beqValue k1 k2 && beqValue v1 v2 && beqPairList as' bs'
  | _, _ => false
end

/-- `HashMap::insert` on the association-list model: if a key equal (by
the derived `Eq`) is present, replace its value in place keeping the
stored key (as Rust's `HashMap` does); otherwise add the new pair.
(`BinMap::read` inserts each decoded pair this way, `bin.rs:585`.) -/
def insertPair (l : List (BinValue × BinValue)) (k v : BinValue) :
    List (BinValue × BinValue) :=
  if l.any (fun p => beqValue p.1 k) then
    l.map (fun p => if beqValue p.1 k then (p.1, v) else p)
  else l ++ [(k, v)]

/-- `StringHasher::write_string_lc` (`utilities/hashing.rs:25-29`).  The
body is `for c in string.chars() { c.to_lowercase().map(|lc|
self.write_u8(c as u8)); }`: `char::to_lowercase` returns a lazy
iterator, and `Iterator::map` is also lazy; the adapter is dropped
without ever being consumed, so the closure never runs and no byte is
written to the hasher. -/
def writeStringLcBytes (_s : List Nat) : List Nat := []

/-- `impl Hash for BinValue` (`bin.rs:623-640`): the byte stream each
variant feeds to the `Hasher` state.  `Hasher::write_uN`/`write_iN` feed
the native-endian (little-endian on the target) bytes of the value; the
catch-all arm `_ => state.write_u8(0)` (commented `// Hack` in the
source) feeds the single byte 0 for every other kind.  Two values collide
in hash iff they feed equal byte streams. -/
def hashBytes : BinValue → List Nat
  | .boolean n v => u32LE n ++ u8LE (if v then 1 else 0)
  | .sbyte n v => u32LE n ++ u8LE v
  | .byte n v => u32LE n ++ u8LE v
  | .int16 n v => u32LE n ++ u16LE v
  | .uint16 n v => u32LE n ++ u16LE v
  | .int32 n v => u32LE n ++ u32LE v
  | .uint32 n v => u32LE n ++ u32LE v
  | .int64 n v => u32LE n ++ u64LE v
  | .uint64 n v => u32LE n ++ u64LE v
  | .string n s => u32LE n ++ writeStringLcBytes s
  | .hash n v => u32LE n ++ u32LE v
  | _ => u8LE 0

/-- The kinds given a real (payload-fed) hash by `impl Hash for BinValue`;
every other kind falls into the `_ => state.write_u8(0)` arm. -/
def hashableKind : BinValueType → Bool
  | .boolean => true
  | .sbyte => true
  | .byte => true
  | .int16 => true
  | .uint16 => true
  | .int32 => true
  | .uint32 => true
  | .int64 => true
  | .uint64 => true
  | .string => true
  | .hash => true
  | _ => false

mutual
/-- `BinValue::write_value` (`bin.rs:341-388`): the bare payload bytes of
a node (no name, no tag). -/
def writeBareValue : BinValue → List Nat
  | .none _ => []
  | .boolean _ v => u8LE (if v then 1 else 0)
  | .sbyte _ v => u8LE v
  | .byte _ v => u8LE v
  | .int16 _ v => u16LE v
  | .uint16 _ v => u16LE v
  | .int32 _ v => u32LE v
  | .uint32 _ v => u32LE v
  | .int64 _ v => u64LE v
  | .uint64 _ v => u64LE v
  | .float _ v => u32LE v
  | .vector2 _ v => u32LE v.x ++ u32LE v.y
  | .vector3 _ v => u32LE v.x ++ u32LE v.y ++ u32LE v.z
  | .vector4 _ v => u32LE v.x ++ u32LE v.y ++ u32LE v.z ++ u32LE v.w
  | .matrix44 _ v =>
      u32LE v.m00 ++ u32LE v.m01 ++ u32LE v.m02 ++ u32LE v.m03
        ++ u32LE v.m10 ++ u32LE v.m11 ++ u32LE v.m12 ++ u32LE v.m13
        ++ u32LE v.m20 ++ u32LE v.m21 ++ u32LE v.m22 ++ u32LE v.m23
        ++ u32LE v.m30 ++ u32LE v.m31 ++ u32LE v.m32 ++ u32LE v.m33
  | .color _ v => u8LE v.r ++ u8LE v.g ++ u8LE v.b ++ u8LE v.a
  | .string _ s => u16LE s.length ++ s
  | .hash _ v => u32LE v
  | .container _ c => writeContainer c
  | .container2 _ c => writeContainer c
  | .struct _ s => writeStructure s
  | .embedded _ s => writeStructure s
  | .link _ v => u32LE v
  | .optional _ ty v =>
      u8LE (packValueType ty)
        ++ u8LE (match v with | some _ => 1 | Option.none => 0)
        ++ (match v with | some o => writeBareValue o | Option.none => [])
  | .map _ m => writeMap m
  | .flagsBoolean _ v => u8LE (if v then 1 else 0)

/-- `BinStructure::write` (`bin.rs:504-516`): name; if the name is the
sentinel 0 nothing more, otherwise content size, field count, then the
named fields.  A field write is `BinValue::write`: name, packed tag,
payload. -/
def writeStructure : BinStructure → List Nat
  | .mk name fields =>
      u32LE name
        ++ (if name ≠ 0 then
              u32LE (structContentSize fields) ++ u16LE fields.length
                ++ writeNamedList fields
            else [])

/-- `BinContainer::write` (`bin.rs:550-560`): packed element tag, content
size, element count, then the bare elements. -/
def writeContainer : BinContainer → List Nat
  | .mk ty values =>
      u8LE (packValueType ty) ++ u32LE (containerContentSize values)
        ++ u32LE values.length ++ writeBareList values

/-- `BinMap::write` (`bin.rs:595-607`): packed key and value tags, content
size, entry count, then bare key/value pairs in iteration order. -/
def writeMap : BinMap → List Nat
  | .mk kt vt entries =>
      u8LE (packValueType kt) ++ u8LE (packValueType vt)
        ++ u32LE (mapContentSize entries) ++ u32LE entries.length
        ++ writePairList entries

/-- The bytes of writing each value with `BinValue::write`
(`bin.rs:306-339`: name, packed tag, then `write_value`) in order. -/
def writeNamedList : List BinValue → List Nat
  | [] => []
  | v :: vs =>
      u32LE v.nameOf ++ u8LE (packValueType v.valueTypeOf) ++ writeBareValue v
        ++ writeNamedList vs

def writeBareList : List BinValue → List Nat
  | [] => []
  | v :: vs => writeBareValue v ++ writeBareList vs

def writePairList : List (BinValue × BinValue) → List Nat
  | [] => []
  | (k, v) :: ps => writeBareValue k ++ writeBareValue v ++ writePairList ps

/-- The `value_size` arm of `BinValue::size` (`bin.rs:443-474`): payload
size without the 5-byte name+tag header.  `mem::size_of` constants:
`Vector2 = 8`, `Vector3 = 12`, `Vector4 = 16`, `[[f32;4];4] = 64`; a
String contributes `value.len() + 2`; an Optional contributes
`2 + option.size(true)`. -/
def valueContentSize : BinValue → Nat
  | .none _ => 0
  | .boolean _ _ => 1
  | .sbyte _ _ => 1
  | .byte _ _ => 1
  | .int16 _ _ => 2
  | .uint16 _ _ => 2
  | .int32 _ _ => 4
  | .uint32 _ _ => 4
  | .int64 _ _ => 8
  | .uint64 _ _ => 8
  | .float _ _ => 4
  | .vector2 _ _ => 8
  | .vector3 _ _ => 12
  | .vector4 _ _ => 16
  | .matrix44 _ _ => 64
  | .color _ _ => 4
  | .string _ s => s.length + 2
  | .hash _ _ => 4
  | .container _ c => containerSize c
  | .container2 _ c => containerSize c
  | .struct _ s => structSize s
  | .embedded _ s => structSize s
  | .link _ _ => 4
  | .optional _ _ v =>
      2 + (match v with | some o => valueContentSize o | Option.none => 0)
  | .map _ m => mapSize m
  | .flagsBoolean _ _ => 1

/-- `BinStructure::size` (`bin.rs:518-521`): 4 for the empty sentinel,
else `4 + 4 + content_size`. -/
def structSize : BinStructure → Nat
  | .mk name fields => if name = 0 then 4 else 4 + 4 + structContentSize fields

/-- `BinStructure::content_size` (`bin.rs:523-530`):
`2 + Σ field.size(false)`, where `size(false) = 5 + value_size`. -/
def structContentSize : List BinValue → Nat
  | [] => 2
  | f :: fs => structContentSize fs + (5 + valueContentSize f)

/-- `BinContainer::size` (`bin.rs:562-564`): `1 + 4 + content_size`. -/
def containerSize : BinContainer → Nat
  | .mk _ values => 1 + 4 + containerContentSize values

/-- `BinContainer::content_size` (`bin.rs:566-573`):
`4 + Σ value.size(true)`, where `size(true) = 0 + value_size`. -/
def containerContentSize : List BinValue → Nat
  | [] => 4
  | v :: vs => containerContentSize vs + valueContentSize v

/-- `BinMap::size` (`bin.rs:609-611`): `1 + 1 + 4 + content_size`. -/
def mapSize : BinMap → Nat
  | .mk _ _ entries => 1 + 1 + 4 + mapContentSize entries

/-- `BinMap::content_size` (`bin.rs:613-620`):
`4 + Σ (key.size(true) + value.size(true))`. -/
def mapContentSize : List (BinValue × BinValue) → Nat
  | [] => 4
  | (k, v) :: ps => mapContentSize ps + (valueContentSize k + valueContentSize v)
end

/-- `BinValue::size` (`bin.rs:441-477`): `is_simple` drops the 5-byte
name+tag header, otherwise it is added to the payload size. -/
def binValueSize (v : BinValue) (isSimple : Bool) : Nat :=
  (if isSimple then 0 else 5) + valueContentSize v

/-- `BinValue::write` (`bin.rs:306-340`): the 4 name bytes, the packed
tag byte, then the `write_value` payload. -/
def writeNamedValue (v : BinValue) : List Nat :=
  u32LE v.nameOf ++ u8LE (packValueType v.valueTypeOf) ++ writeBareValue v

theorem rdU8_len {bs : List Nat} {v : Nat} {r : List Nat}
    (h : rdU8 bs = .ok (v, r)) : r.length < bs.length := by
  unfold rdU8 at h
  split at h <;> simp_all

theorem rdU16_len {bs : List Nat} {v : Nat} {r : List Nat}
    (h : rdU16 bs = .ok (v, r)) : r.length < bs.length := by
  unfold rdU16 at h
  split at h <;> simp_all <;> omega

theorem rdU32_len {bs : List Nat} {v : Nat} {r : List Nat}
    (h : rdU32 bs = .ok (v, r)) : r.length < bs.length := by
  unfold rdU32 at h
  split at h <;> simp_all <;> omega

theorem rdU64_len {bs : List Nat} {v : Nat} {r : List Nat}
    (h : rdU64 bs = .ok (v, r)) : r.length < bs.length := by
  unfold rdU64 at h
  split at h <;> simp_all <;> omega

theorem rdBytes_len {n : Nat} {bs : List Nat} {s r : List Nat}
    (h : rdBytes n bs = .ok (s, r)) : r.length ≤ bs.length := by
  unfold rdBytes at h
  split at h
  · simp only [Except.ok.injEq, Prod.mk.injEq] at h
    obtain ⟨-, hr⟩ := h
    subst hr
    simp
  · simp at h

theorem rdStringN_len {n : Nat} {bs : List Nat} {s r : List Nat}
    (h : rdStringN n bs = .ok (s, r)) : r.length ≤ bs.length := by
  unfold rdStringN at h
  cases hb : rdBytes n bs with
  | error e => rw [hb] at h; simp at h
  | ok p =>
    obtain ⟨s', r'⟩ := p
    rw [hb] at h
    dsimp only at h
    split at h
    · simp only [Except.ok.injEq, Prod.mk.injEq] at h
      obtain ⟨-, hr⟩ := h
      subst hr
      exact rdBytes_len hb
    · simp at h

/-- `Vector2::read` (`structures/vector2.rs:21-26`): two `f32` reads,
carried as bit patterns. -/
def rdVec2 (bs : List Nat) : Except BinErr (FVec2 × List Nat) :=
  match rdU32 bs with
  | .error e => .error e
  | .ok (x, r1) =>
    match rdU32 r1 with
    | .error e => .error e
    | .ok (y, r2) => .ok (⟨x, y⟩, r2)

/-- `Vector3::read` (`structures/vector3.rs`). -/
def rdVec3 (bs : List Nat) : Except BinErr (FVec3 × List Nat) :=
  match rdU32 bs with
  | .error e => .error e
  | .ok (x, r1) =>
    match rdU32 r1 with
    | .error e => .error e
    | .ok (y, r2) =>
      match rdU32 r2 with
      | .error e => .error e
      | .ok (z, r3) => .ok (⟨x, y, z⟩, r3)

/-- `Vector4::read` (`structures/vector4.rs`). -/
def rdVec4 (bs : List Nat) : Except BinErr (FVec4 × List Nat) :=
  match rdU32 bs with
  | .error e => .error e
  | .ok (x, r1) =>
    match rdU32 r1 with
    | .error e => .error e
    | .ok (y, r2) =>
      match rdU32 r2 with
      | .error e => .error e
      | .ok (z, r3) =>
        match rdU32 r3 with
        | .error e => .error e
        | .ok (w, r4) => .ok (⟨x, y, z, w⟩, r4)

/-- The 16 sequential `read_f32` of the Matrix44 arm (`bin.rs:262-272`),
row-major. -/
def rdMat44 (bs : List Nat) : Except BinErr (FMat44 × List Nat) :=
  match rdVec4 bs with
  | .error e => .error e
  | .ok (r0, s1) =>
    match rdVec4 s1 with
    | .error e => .error e
    | .ok (r1, s2) =>
      match rdVec4 s2 with
      | .error e => .error e
      | .ok (r2, s3) =>
        match rdVec4 s3 with
        | .error e => .error e
        | .ok (r3, s4) =>
          .ok (⟨r0.x, r0.y, r0.z, r0.w, r1.x, r1.y, r1.z, r1.w,
                r2.x, r2.y, r2.z, r2.w, r3.x, r3.y, r3.z, r3.w⟩, s4)

/-- `LinSrgba::read_rgba_u8` (`structures/color.rs:23-28`): four channel
bytes; the stored value is represented by the bytes themselves (header
comment). -/
def rdColor (bs : List Nat) : Except BinErr (FColor × List Nat) :=
  match rdU8 bs with
  | .error e => .error e
  | .ok (r, s1) =>
    match rdU8 s1 with
    | .error e => .error e
    | .ok (g, s2) =>
      match rdU8 s2 with
      | .error e => .error e
      | .ok (b, s3) =>
        match rdU8 s3 with
        | .error e => .error e
        | .ok (a, s4) => .ok (⟨r, g, b, a⟩, s4)

theorem rdVec2_len {bs : List Nat} {v : FVec2} {r : List Nat}
    (h : rdVec2 bs = .ok (v, r)) : r.length < bs.length := by
  unfold rdVec2 at h
  split at h
  · simp at h
  · rename_i x r1 h1
    split at h
    · simp at h
    · rename_i y r2 h2
      simp only [Except.ok.injEq, Prod.mk.injEq] at h
      obtain ⟨-, hr⟩ := h
      subst hr
      have := rdU32_len h1; have := rdU32_len h2; omega

theorem rdVec3_len {bs : List Nat} {v : FVec3} {r : List Nat}
    (h : rdVec3 bs = .ok (v, r)) : r.length < bs.length := by
  unfold rdVec3 at h
  split at h
  · simp at h
  · rename_i x r1 h1
    split at h
    · simp at h
    · rename_i y r2 h2
      split at h
      · simp at h
      · rename_i z r3 h3
        simp only [Except.ok.injEq, Prod.mk.injEq] at h
        obtain ⟨-, hr⟩ := h
        subst hr
        have := rdU32_len h1; have := rdU32_len h2; have := rdU32_len h3; omega

theorem rdVec4_len {bs : List Nat} {v : FVec4} {r : List Nat}
    (h : rdVec4 bs = .ok (v, r)) : r.length < bs.length := by
  unfold rdVec4 at h
  split at h
  · simp at h
  · rename_i x r1 h1
    split at h
    · simp at h
    · rename_i y r2 h2
      split at h
      · simp at h
      · rename_i z r3 h3
        split at h
        · simp at h
        · rename_i w r4 h4
          simp only [Except.ok.injEq, Prod.mk.injEq] at h
          obtain ⟨-, hr⟩ := h
          subst hr
          have := rdU32_len h1; have := rdU32_len h2
          have := rdU32_len h3; have := rdU32_len h4; omega

theorem rdMat44_len {bs : List Nat} {v : FMat44} {r : List Nat}
    (h : rdMat44 bs = .ok (v, r)) : r.length < bs.length := by
  unfold rdMat44 at h
  split at h
  · simp at h
  · rename_i r0 s1 h1
    split at h
    · simp at h
    · rename_i r1 s2 h2
      split at h
      · simp at h
      · rename_i r2 s3 h3
        split at h
        · simp at h
        · rename_i r3 s4 h4
          simp only [Except.ok.injEq, Prod.mk.injEq] at h
          obtain ⟨-, hr⟩ := h
          subst hr
          have := rdVec4_len h1; have := rdVec4_len h2
          have := rdVec4_len h3; have := rdVec4_len h4; omega

theorem rdColor_len {bs : List Nat} {v : FColor} {r : List Nat}
    (h : rdColor bs = .ok (v, r)) : r.length < bs.length := by
  unfold rdColor at h
  split at h
  · simp at h
  · rename_i c1 s1 h1
    split at h
    · simp at h
    · rename_i c2 s2 h2
      split at h
      · simp at h
      · rename_i c3 s3 h3
        split at h
        · simp at h
        · rename_i c4 s4 h4
          simp only [Except.ok.injEq, Prod.mk.injEq] at h
          obtain ⟨-, hr⟩ := h
          subst hr
          have := rdU8_len h1; have := rdU8_len h2
          have := rdU8_len h3; have := rdU8_len h4; omega

/-- The prologue of `BinValue::read` (`bin.rs:240-245`): 4-byte name, one
tag byte unpacked with `unpack_value_type` (a bad tag panics). -/
def rdNamedHeader (bs : List Nat) : Except BinErr ((Nat × BinValueType) × List Nat) :=
  match rdU32 bs with
  | .error e => .error e
  | .ok (name, r1) =>
    match rdU8 r1 with
    | .error e => .error e
    | .ok (tb, r2) =>
      match unpackValueType tb with
      | .error e => .error e
      | .ok ty => .ok ((name, ty), r2)

/-- The prologue of `BinContainer::read` (`bin.rs:534-538`): packed
element tag (unpacked at once), 4-byte content size (read, then unused),
4-byte element count. -/
def rdContainerHeader (bs : List Nat) : Except BinErr ((BinValueType × Nat) × List Nat) :=
  match rdU8 bs with
  | .error e => .error e
  | .ok (tb, r1) =>
    match unpackValueType tb with
    | .error e => .error e
    | .ok ty =>
      match rdU32 r1 with
      | .error e => .error e
      | .ok (_sz, r2) =>
        match rdU32 r2 with
        | .error e => .error e
        | .ok (cnt, r3) => .ok ((ty, cnt), r3)

/-- The prologue of `BinMap::read` (`bin.rs:577-582`): packed key tag,
packed value tag, 4-byte content size (unused), 4-byte entry count. -/
def rdMapHeader (bs : List Nat) :
    Except BinErr ((BinValueType × BinValueType × Nat) × List Nat) :=
  match rdU8 bs with
  | .error e => .error e
  | .ok (kb, r1) =>
    match unpackValueType kb with
    | .error e => .error e
    | .ok kt =>
      match rdU8 r1 with
      | .error e => .error e
      | .ok (vb, r2) =>
        match unpackValueType vb with
        | .error e => .error e
        | .ok vt =>
          match rdU32 r2 with
          | .error e => .error e
          | .ok (_sz, r3) =>
            match rdU32 r3 with
            | .error e => .error e
            | .ok (cnt, r4) => .ok ((kt, vt, cnt), r4)

/-- The prologue of `BinStructure::read` (`bin.rs:481-491`): 4-byte name;
if it is 0 the structure is complete, otherwise a 4-byte content size
(unused) and a 2-byte field count follow. -/
def rdStructHeader (bs : List Nat) : Except BinErr ((Nat × Option Nat) × List Nat) :=
  match rdU32 bs with
  | .error e => .error e
  | .ok (name, r1) =>
    if name = 0 then .ok ((name, Option.none), r1)
    else
      match rdU32 r1 with
      | .error e => .error e
      | .ok (_sz, r2) =>
        match rdU16 r2 with
        | .error e => .error e
        | .ok (cnt, r3) => .ok ((name, some cnt), r3)

/-- The prologue of `BinValue::read_optional` (`bin.rs:295-297`): packed
inner tag (unpacked at once, a bad tag panics), 1-byte presence flag. -/
def rdOptHeader (bs : List Nat) : Except BinErr ((BinValueType × Bool) × List Nat) :=
  match rdU8 bs with
  | .error e => .error e
  | .ok (tb, r1) =>
    match unpackValueType tb with
    | .error e => .error e
    | .ok ty =>
      match rdU8 r1 with
      | .error e => .error e
      | .ok (fl, r2) => .ok ((ty, fl != 0), r2)

theorem rdNamedHeader_len {bs : List Nat} {x : Nat × BinValueType} {r : List Nat}
    (h : rdNamedHeader bs = .ok (x, r)) : r.length < bs.length := by
  unfold rdNamedHeader at h
  split at h
  · simp at h
  · rename_i name r1 h1
    split at h
    · simp at h
    · rename_i tb r2 h2
      split at h
      · simp at h
      · simp only [Except.ok.injEq, Prod.mk.injEq] at h
        obtain ⟨-, hr⟩ := h
        subst hr
        have := rdU32_len h1; have := rdU8_len h2; omega

theorem rdContainerHeader_len {bs : List Nat} {x : BinValueType × Nat} {r : List Nat}
    (h : rdContainerHeader bs = .ok (x, r)) : r.length < bs.length := by
  unfold rdContainerHeader at h
  split at h
  · simp at h
  · rename_i tb r1 h1
    split at h
    · simp at h
    · rename_i ty hu
      split at h
      · simp at h
      · rename_i sz r2 h2
        split at h
        · simp at h
        · rename_i cnt r3 h3
          simp only [Except.ok.injEq, Prod.mk.injEq] at h
          obtain ⟨-, hr⟩ := h
          subst hr
          have := rdU8_len h1; have := rdU32_len h2; have := rdU32_len h3; omega

theorem rdMapHeader_len {bs : List Nat} {x : BinValueType × BinValueType × Nat}
    {r : List Nat} (h : rdMapHeader bs = .ok (x, r)) : r.length < bs.length := by
  unfold rdMapHeader at h
  split at h
  · simp at h
  · rename_i kb r1 h1
    split at h
    · simp at h
    · rename_i kt hk
      split at h
      · simp at h
      · rename_i vb r2 h2
        split at h
        · simp at h
        · rename_i vt hv
          split at h
          · simp at h
          · rename_i sz r3 h3
            split at h
            · simp at h
            · rename_i cnt r4 h4
              simp only [Except.ok.injEq, Prod.mk.injEq] at h
              obtain ⟨-, hr⟩ := h
              subst hr
              have := rdU8_len h1; have := rdU8_len h2
              have := rdU32_len h3; have := rdU32_len h4; omega

theorem rdStructHeader_len {bs : List Nat} {x : Nat × Option Nat} {r : List Nat}
    (h : rdStructHeader bs = .ok (x, r)) : r.length < bs.length := by
  unfold rdStructHeader at h
  split at h
  · simp at h
  · rename_i name r1 h1
    split at h
    · simp only [Except.ok.injEq, Prod.mk.injEq] at h
      obtain ⟨-, hr⟩ := h
      subst hr
      exact rdU32_len h1
    · split at h
      · simp at h
      · rename_i sz r2 h2
        split at h
        · simp at h
        · rename_i cnt r3 h3
          simp only [Except.ok.injEq, Prod.mk.injEq] at h
          obtain ⟨-, hr⟩ := h
          subst hr
          have := rdU32_len h1; have := rdU32_len h2; have := rdU16_len h3; omega

theorem rdOptHeader_len {bs : List Nat} {x : BinValueType × Bool} {r : List Nat}
    (h : rdOptHeader bs = .ok (x, r)) : r.length < bs.length := by
  unfold rdOptHeader at h
  split at h
  · simp at h
  · rename_i tb r1 h1
    split at h
    · simp at h
    · rename_i ty hu
      split at h
      · simp at h
      · rename_i fl r2 h2
        simp only [Except.ok.injEq, Prod.mk.injEq] at h
        obtain ⟨-, hr⟩ := h
        subst hr
        have := rdU8_len h1; have := rdU8_len h2; omega

/-- Remaining bytes of a read, bounded by the input length (used to build
the termination measure of the mutual readers). -/
abbrev Rem (bs : List Nat) := {r : List Nat // r.length ≤ bs.length}

def lexLt {a b k j : Nat} (h : a < b) :
    Prod.Lex (· < ·) (· < ·) (a, k) (b, j) := Prod.Lex.left _ _ h

def lexLe {a b k j : Nat} (h1 : a ≤ b) (h2 : k < j) :
    Prod.Lex (· < ·) (· < ·) (a, k) (b, j) := by
  rcases Nat.lt_or_ge a b with h | h
  · exact Prod.Lex.left _ _ h
  · have heq : a = b := Nat.le_antisymm h1 h
    subst heq
    exact Prod.Lex.right _ h2

/-- Remaining bytes of a strictly consuming read. -/
abbrev RemLt (bs : List Nat) := {r : List Nat // r.length < bs.length}

/-- `rdU8` with the consumption bound attached (`read_u8` always consumes
exactly one byte when it succeeds). -/
def rdU8S (bs : List Nat) : Except BinErr (Nat × RemLt bs) :=
  match bs with
  | [] => .error .eof
  | b :: r => .ok (b % 256, ⟨r, by simp⟩)

/-- `rdU16` with the consumption bound attached. -/
def rdU16S (bs : List Nat) : Except BinErr (Nat × RemLt bs) :=
  match bs with
  | b0 :: b1 :: r => .ok (b0 % 256 + 2^8 * (b1 % 256), ⟨r, by simp; omega⟩)
  | _ => .error .eof

/-- `rdU32` with the consumption bound attached. -/
def rdU32S (bs : List Nat) : Except BinErr (Nat × RemLt bs) :=
  match bs with
  | b0 :: b1 :: b2 :: b3 :: r =>
      .ok (b0 % 256 + 2^8 * (b1 % 256) + 2^16 * (b2 % 256) + 2^24 * (b3 % 256),
           ⟨r, by simp; omega⟩)
  | _ => .error .eof

/-- `rdU64` with the consumption bound attached. -/
def rdU64S (bs : List Nat) : Except BinErr (Nat × RemLt bs) :=
  match bs with
  | b0 :: b1 :: b2 :: b3 :: b4 :: b5 :: b6 :: b7 :: r =>
      .ok (b0 % 256 + 2^8 * (b1 % 256) + 2^16 * (b2 % 256) + 2^24 * (b3 % 256)
            + 2^32 * (b4 % 256) + 2^40 * (b5 % 256) + 2^48 * (b6 % 256)
            + 2^56 * (b7 % 256), ⟨r, by simp; omega⟩)
  | _ => .error .eof

/-- `rdStringN` with the consumption bound attached. -/
def rdStringNS (n : Nat) (bs : List Nat) : Except BinErr (List Nat × Rem bs) :=
  match h : rdStringN n bs with
  | .error e => .error e
  | .ok (s, r) => .ok (s, ⟨r, rdStringN_len h⟩)

/-- `Vector2::read` with the consumption bound attached. -/
def rdVec2S (bs : List Nat) : Except BinErr (FVec2 × RemLt bs) :=
  match rdU32S bs with
  | .error e => .error e
  | .ok (x, ⟨r1, h1⟩) =>
    match rdU32S r1 with
    | .error e => .error e
    | .ok (y, ⟨r2, h2⟩) => .ok (⟨x, y⟩, ⟨r2, by omega⟩)

/-- `Vector3::read` with the consumption bound attached. -/
def rdVec3S (bs : List Nat) : Except BinErr (FVec3 × RemLt bs) :=
  match rdU32S bs with
  | .error e => .error e
  | .ok (x, ⟨r1, h1⟩) =>
    match rdU32S r1 with
    | .error e => .error e
    | .ok (y, ⟨r2, h2⟩) =>
      match rdU32S r2 with
      | .error e => .error e
      | .ok (z, ⟨r3, h3⟩) => .ok (⟨x, y, z⟩, ⟨r3, by omega⟩)

/-- `Vector4::read` with the consumption bound attached. -/
def rdVec4S (bs : List Nat) : Except BinErr (FVec4 × RemLt bs) :=
  match rdU32S bs with
  | .error e => .error e
  | .ok (x, ⟨r1, h1⟩) =>
    match rdU32S r1 with
    | .error e => .error e
    | .ok (y, ⟨r2, h2⟩) =>
      match rdU32S r2 with
      | .error e => .error e
      | .ok (z, ⟨r3, h3⟩) =>
        match rdU32S r3 with
        | .error e => .error e
        | .ok (w, ⟨r4, h4⟩) => .ok (⟨x, y, z, w⟩, ⟨r4, by omega⟩)

/-- The 16 sequential `read_f32` of the Matrix44 arm (`bin.rs:262-272`),
row-major, with the consumption bound attached. -/
def rdMat44S (bs : List Nat) : Except BinErr (FMat44 × RemLt bs) :=
  match rdVec4S bs with
  | .error e => .error e
  | .ok (r0, ⟨s1, h1⟩) =>
    match rdVec4S s1 with
    | .error e => .error e
    | .ok (r1, ⟨s2, h2⟩) =>
      match rdVec4S s2 with
      | .error e => .error e
      | .ok (r2, ⟨s3, h3⟩) =>
        match rdVec4S s3 with
        | .error e => .error e
        | .ok (r3, ⟨s4, h4⟩) =>
          .ok (⟨r0.x, r0.y, r0.z, r0.w, r1.x, r1.y, r1.z, r1.w,
                r2.x, r2.y, r2.z, r2.w, r3.x, r3.y, r3.z, r3.w⟩,
               ⟨s4, by omega⟩)

/-- `LinSrgba::read_rgba_u8` (`structures/color.rs:23-28`) with the
consumption bound attached. -/
def rdColorS (bs : List Nat) : Except BinErr (FColor × RemLt bs) :=
  match rdU8S bs with
  | .error e => .error e
  | .ok (r, ⟨s1, h1⟩) =>
    match rdU8S s1 with
    | .error e => .error e
    | .ok (g, ⟨s2, h2⟩) =>
      match rdU8S s2 with
      | .error e => .error e
      | .ok (b, ⟨s3, h3⟩) =>
        match rdU8S s3 with
        | .error e => .error e
        | .ok (a, ⟨s4, h4⟩) => .ok (⟨r, g, b, a⟩, ⟨s4, by omega⟩)

/-- The prologue of `BinValue::read` (`bin.rs:240-245`) with the
consumption bound attached: 4-byte name, one tag byte unpacked with
`unpack_value_type` (a bad tag panics). -/
def rdNamedHeaderS (bs : List Nat) :
    Except BinErr ((Nat × BinValueType) × RemLt bs) :=
  match rdU32S bs with
  | .error e => .error e
  | .ok (name, ⟨r1, h1⟩) =>
    match rdU8S r1 with
    | .error e => .error e
    | .ok (tb, ⟨r2, h2⟩) =>
      match unpackValueType tb with
      | .error e => .error e
      | .ok ty => .ok ((name, ty), ⟨r2, by omega⟩)

/-- The prologue of `BinContainer::read` (`bin.rs:534-538`) with the
consumption bound attached: packed element tag (unpacked at once, a bad
tag panics), 4-byte content size (read, then unused), 4-byte element
count. -/
def rdContainerHeaderS (bs : List Nat) :
    Except BinErr ((BinValueType × Nat) × RemLt bs) :=
  match rdU8S bs with
  | .error e => .error e
  | .ok (tb, ⟨r1, h1⟩) =>
    match unpackValueType tb with
    | .error e => .error e
    | .ok ty =>
      match rdU32S r1 with
      | .error e => .error e
      | .ok (_sz, ⟨r2, h2⟩) =>
        match rdU32S r2 with
        | .error e => .error e
        | .ok (cnt, ⟨r3, h3⟩) => .ok ((ty, cnt), ⟨r3, by omega⟩)

/-- The prologue of `BinMap::read` (`bin.rs:577-582`) with the
consumption bound attached: packed key tag, packed value tag, 4-byte
content size (unused), 4-byte entry count. -/
def rdMapHeaderS (bs : List Nat) :
    Except BinErr ((BinValueType × BinValueType × Nat) × RemLt bs) :=
  match rdU8S bs with
  | .error e => .error e
  | .ok (kb, ⟨r1, h1⟩) =>
    match unpackValueType kb with
    | .error e => .error e
    | .ok kt =>
      match rdU8S r1 with
      | .error e => .error e
      | .ok (vb, ⟨r2, h2⟩) =>
        match unpackValueType vb with
        | .error e => .error e
        | .ok vt =>
          match rdU32S r2 with
          | .error e => .error e
          | .ok (_sz, ⟨r3, h3⟩) =>
            match rdU32S r3 with
            | .error e => .error e
            | .ok (cnt, ⟨r4, h4⟩) => .ok ((kt, vt, cnt), ⟨r4, by omega⟩)

/-- The prologue of `BinStructure::read` (`bin.rs:481-491`) with the
consumption bound attached: 4-byte name; if it is 0 the structure is
complete, otherwise a 4-byte content size (unused) and a 2-byte field
count follow. -/
def rdStructHeaderS (bs : List Nat) :
    Except BinErr ((Nat × Option Nat) × RemLt bs) :=
  match rdU32S bs with
  | .error e => .error e
  | .ok (name, ⟨r1, h1⟩) =>
    if name = 0 then .ok ((name, Option.none), ⟨r1, h1⟩)
    else
      match rdU32S r1 with
      | .error e => .error e
      | .ok (_sz, ⟨r2, h2⟩) =>
        match rdU16S r2 with
        | .error e => .error e
        | .ok (cnt, ⟨r3, h3⟩) => .ok ((name, some cnt), ⟨r3, by omega⟩)

/-- The prologue of `BinValue::read_optional` (`bin.rs:295-297`) with the
consumption bound attached: packed inner tag (unpacked at once, a bad tag
panics), 1-byte presence flag. -/
def rdOptHeaderS (bs : List Nat) :
    Except BinErr ((BinValueType × Bool) × RemLt bs) :=
  match rdU8S bs with
  | .error e => .error e
  | .ok (tb, ⟨r1, h1⟩) =>
    match unpackValueType tb with
    | .error e => .error e
    | .ok ty =>
      match rdU8S r1 with
      | .error e => .error e
      | .ok (fl, ⟨r2, h2⟩) => .ok ((ty, fl != 0), ⟨r2, by omega⟩)

mutual
/-- `BinValue::read_value` (`bin.rs:246-294`): decode a bare payload of
the given kind, attaching the caller-supplied name.  The dispatch is
exhaustive over the 26 kinds (the source's trailing
`_ => Err(InvalidData)` arm is unreachable). -/
def readValueBody (name : Nat) (ty : BinValueType) (bs : List Nat) :
    Except BinErr (BinValue × Rem bs) :=
  match ty with
  | .none => .ok (.none name, ⟨bs, Nat.le_refl _⟩)
  | .boolean =>
    match rdU8S bs with
    | .error e => .error e
    | .ok (b, ⟨r, h⟩) => .ok (.boolean name (b != 0), ⟨r, by omega⟩)
  | .sbyte =>
    match rdU8S bs with
    | .error e => .error e
    | .ok (b, ⟨r, h⟩) => .ok (.sbyte name b, ⟨r, by omega⟩)
  | .byte =>
    match rdU8S bs with
    | .error e => .error e
    | .ok (b, ⟨r, h⟩) => .ok (.byte name b, ⟨r, by omega⟩)
  | .int16 =>
    match rdU16S bs with
    | .error e => .error e
    | .ok (v, ⟨r, h⟩) => .ok (.int16 name v, ⟨r, by omega⟩)
  | .uint16 =>
    match rdU16S bs with
    | .error e => .error e
    | .ok (v, ⟨r, h⟩) => .ok (.uint16 name v, ⟨r, by omega⟩)
  | .int32 =>
    match rdU32S bs with
    | .error e => .error e
    | .ok (v, ⟨r, h⟩) => .ok (.int32 name v, ⟨r, by omega⟩)
  | .uint32 =>
    match rdU32S bs with
    | .error e => .error e
    | .ok (v, ⟨r, h⟩) => .ok (.uint32 name v, ⟨r, by omega⟩)
  | .int64 =>
    match rdU64S bs with
    | .error e => .error e
    | .ok (v, ⟨r, h⟩) => .ok (.int64 name v, ⟨r, by omega⟩)
  | .uint64 =>
    match rdU64S bs with
    | .error e => .error e
    | .ok (v, ⟨r, h⟩) => .ok (.uint64 name v, ⟨r, by omega⟩)
  | .float =>
    match rdU32S bs with
    | .error e => .error e
    | .ok (v, ⟨r, h⟩) => .ok (.float name v, ⟨r, by omega⟩)
  | .vector2 =>
    match rdVec2S bs with
    | .error e => .error e
    | .ok (v, ⟨r, h⟩) => .ok (.vector2 name v, ⟨r, by omega⟩)
  | .vector3 =>
    match rdVec3S bs with
    | .error e => .error e
    | .ok (v, ⟨r, h⟩) => .ok (.vector3 name v, ⟨r, by omega⟩)
  | .vector4 =>
    match rdVec4S bs with
    | .error e => .error e
    | .ok (v, ⟨r, h⟩) => .ok (.vector4 name v, ⟨r, by omega⟩)
  | .matrix44 =>
    match rdMat44S bs with
    | .error e => .error e
    | .ok (v, ⟨r, h⟩) => .ok (.matrix44 name v, ⟨r, by omega⟩)
  | .color =>
    match rdColorS bs with
    | .error e => .error e
    | .ok (v, ⟨r, h⟩) => .ok (.color name v, ⟨r, by omega⟩)
  | .string =>
    match rdU16S bs with
    | .error e => .error e
    | .ok (len, ⟨r1, h1⟩) =>
      match rdStringNS len r1 with
      | .error e => .error e
      | .ok (s, ⟨r2, h2⟩) => .ok (.string name s, ⟨r2, by omega⟩)
  | .hash =>
    match rdU32S bs with
    | .error e => .error e
    | .ok (v, ⟨r, h⟩) => .ok (.hash name v, ⟨r, by omega⟩)
  | .container =>
    match rdContainerHeaderS bs with
    | .error e => .error e
    | .ok ((ety, cnt), ⟨r1, h1⟩) =>
      match readBareList ety cnt r1 with
      | .error e => .error e
      | .ok (vs, ⟨r2, h2⟩) => .ok (.container name (.mk ety vs), ⟨r2, by omega⟩)
  | .container2 =>
    match rdContainerHeaderS bs with
    | .error e => .error e
    | .ok ((ety, cnt), ⟨r1, h1⟩) =>
      match readBareList ety cnt r1 with
      | .error e => .error e
      | .ok (vs, ⟨r2, h2⟩) => .ok (.container2 name (.mk ety vs), ⟨r2, by omega⟩)
  | .struct =>
    match rdStructHeaderS bs with
    | .error e => .error e
    | .ok ((nm, Option.none), ⟨r1, h1⟩) =>
      .ok (.struct name (.mk nm []), ⟨r1, by omega⟩)
    | .ok ((nm, some cnt), ⟨r1, h1⟩) =>
      match readNamedList cnt r1 with
      | .error e => .error e
      | .ok (fields, ⟨r2, h2⟩) => .ok (.struct name (.mk nm fields), ⟨r2, by omega⟩)
  | .embedded =>
    match rdStructHeaderS bs with
    | .error e => .error e
    | .ok ((nm, Option.none), ⟨r1, h1⟩) =>
      .ok (.embedded name (.mk nm []), ⟨r1, by omega⟩)
    | .ok ((nm, some cnt), ⟨r1, h1⟩) =>
      match readNamedList cnt r1 with
      | .error e => .error e
      | .ok (fields, ⟨r2, h2⟩) => .ok (.embedded name (.mk nm fields), ⟨r2, by omega⟩)
  | .link =>
    match rdU32S bs with
    | .error e => .error e
    | .ok (v, ⟨r, h⟩) => .ok (.link name v, ⟨r, by omega⟩)
  | .optional =>
    match rdOptHeaderS bs with
    | .error e => .error e
    | .ok ((vt, true), ⟨r1, h1⟩) =>
      match readValueBody 0 vt r1 with
      | .error e => .error e
      | .ok (v, ⟨r2, h2⟩) => .ok (.optional name vt (some v), ⟨r2, by omega⟩)
    | .ok ((vt, false), ⟨r1, h1⟩) =>
      .ok (.optional name vt Option.none, ⟨r1, by omega⟩)
  | .map =>
    match rdMapHeaderS bs with
    | .error e => .error e
    | .ok ((kt, vt, cnt), ⟨r1, h1⟩) =>
      match readPairList kt vt cnt [] r1 with
      | .error e => .error e
      | .ok (entries, ⟨r2, h2⟩) => .ok (.map name (.mk kt vt entries), ⟨r2, by omega⟩)
  | .flagsBoolean =>
    match rdU8S bs with
    | .error e => .error e
    | .ok (b, ⟨r, h⟩) => .ok (.flagsBoolean name (b != 0), ⟨r, by omega⟩)
termination_by (bs.length, 1)
decreasing_by
all_goals
  first
  | exact lexLt (by omega)
  | exact lexLe (by omega) (by omega)

/-- `BinValue::read` (`bin.rs:240-245`): name, tag, then the payload. -/
def readNamedValue (bs : List Nat) : Except BinErr (BinValue × Rem bs) :=
  match rdNamedHeaderS bs with
  | .error e => .error e
  | .ok ((name, ty), ⟨r1, h1⟩) =>
    match readValueBody name ty r1 with
    | .error e => .error e
    | .ok (v, ⟨r2, h2⟩) => .ok (v, ⟨r2, by omega⟩)
termination_by (bs.length, 1)
decreasing_by
all_goals
  first
  | exact lexLt (by omega)
  | exact lexLe (by omega) (by omega)

/-- The element loop of `BinContainer::read` (`bin.rs:539-542`): `cnt`
bare values of the declared kind, each read as `read_value(0, ty)`. -/
def readBareList (ty : BinValueType) (cnt : Nat) (bs : List Nat) :
    Except BinErr (List BinValue × Rem bs) :=
  match cnt with
  | 0 => .ok ([], ⟨bs, Nat.le_refl _⟩)
  | c + 1 =>
    match readValueBody 0 ty bs with
    | .error e => .error e
    | .ok (v, ⟨r1, h1⟩) =>
      match readBareList ty c r1 with
      | .error e => .error e
      | .ok (vs, ⟨r2, h2⟩) => .ok (v :: vs, ⟨r2, by omega⟩)
termination_by (bs.length, cnt + 2)
decreasing_by
all_goals
  first
  | exact lexLt (by omega)
  | exact lexLe (by omega) (by omega)

/-- The field loops of `BinStructure::read` (`bin.rs:492-495`) and
`BinEntry::read` (`bin.rs:200-204`): `cnt` named values read with
`BinValue::read`. -/
def readNamedList (cnt : Nat) (bs : List Nat) :
    Except BinErr (List BinValue × Rem bs) :=
  match cnt with
  | 0 => .ok ([], ⟨bs, Nat.le_refl _⟩)
  | c + 1 =>
    match readNamedValue bs with
    | .error e => .error e
    | .ok (v, ⟨r1, h1⟩) =>
      match readNamedList c r1 with
      | .error e => .error e
      | .ok (vs, ⟨r2, h2⟩) => .ok (v :: vs, ⟨r2, by omega⟩)
termination_by (bs.length, cnt + 2)
decreasing_by
all_goals
  first
  | exact lexLt (by omega)
  | exact lexLe (by omega) (by omega)

/-- The entry loop of `BinMap::read` (`bin.rs:583-586`): `cnt` bare
(key, value) pairs, inserted into the map as they are read. -/
def readPairList (kt vt : BinValueType) (cnt : Nat)
    (acc : List (BinValue × BinValue)) (bs : List Nat) :
    Except BinErr (List (BinValue × BinValue) × Rem bs) :=
  match cnt with
  | 0 => .ok (acc, ⟨bs, Nat.le_refl _⟩)
  | c + 1 =>
    match readValueBody 0 kt bs with
    | .error e => .error e
    | .ok (k, ⟨r1, h1⟩) =>
      match readValueBody 0 vt r1 with
      | .error e => .error e
      | .ok (v, ⟨r2, h2⟩) =>
        match readPairList kt vt c (insertPair acc k v) r2 with
        | .error e => .error e
        | .ok (es, ⟨r3, h3⟩) => .ok (es, ⟨r3, by omega⟩)
termination_by (bs.length, cnt + 2)
decreasing_by
all_goals
  first
  | exact lexLt (by omega)
  | exact lexLe (by omega) (by omega)
end

/-- `readBareList` with the remaining stream as a plain list. -/
def readBareListP (ty : BinValueType) (cnt : Nat) (bs : List Nat) :
    Except BinErr (List BinValue × List Nat) :=
  match readBareList ty cnt bs with
  | .error e => .error e
  | .ok (vs, r) => .ok (vs, r.val)

/-- `readNamedList` with the remaining stream as a plain list. -/
def readNamedListP (cnt : Nat) (bs : List Nat) :
    Except BinErr (List BinValue × List Nat) :=
  match readNamedList cnt bs with
  | .error e => .error e
  | .ok (vs, r) => .ok (vs, r.val)

/-- `readPairList` with the remaining stream as a plain list. -/
def readPairListP (kt vt : BinValueType) (cnt : Nat)
    (acc : List (BinValue × BinValue)) (bs : List Nat) :
    Except BinErr (List (BinValue × BinValue) × List Nat) :=
  match readPairList kt vt cnt acc bs with
  | .error e => .error e
  | .ok (ps, r) => .ok (ps, r.val)

/-- `BinValue::read` (`bin.rs:240-245`) with the remaining stream as a
plain list. -/
def binValueRead (bs : List Nat) : Except BinErr (BinValue × List Nat) :=
  match readNamedValue bs with
  | .error e => .error e
  | .ok (v, r) => .ok (v, r.val)

/-- `BinValue::read_value` (`bin.rs:246-294`) with the remaining stream
as a plain list. -/
def binValueReadValue (name : Nat) (ty : BinValueType) (bs : List Nat) :
    Except BinErr (BinValue × List Nat) :=
  match readValueBody name ty bs with
  | .error e => .error e
  | .ok (v, r) => .ok (v, r.val)

/-- `BinStructure::read` (`bin.rs:481-502`): name-0 sentinel gives an
empty structure; otherwise content size (unused), field count, fields. -/
def binStructureRead (bs : List Nat) : Except BinErr (BinStructure × List Nat) :=
  match rdStructHeader bs with
  | .error e => .error e
  | .ok ((nm, Option.none), r) => .ok (.mk nm [], r)
  | .ok ((nm, some cnt), r) =>
    match readNamedListP cnt r with
    | .error e => .error e
    | .ok (fields, r2) => .ok (.mk nm fields, r2)

/-- `BinContainer::read` (`bin.rs:534-548`). -/
def binContainerRead (bs : List Nat) : Except BinErr (BinContainer × List Nat) :=
  match rdContainerHeader bs with
  | .error e => .error e
  | .ok ((ety, cnt), r) =>
    match readBareListP ety cnt r with
    | .error e => .error e
    | .ok (vs, r2) => .ok (.mk ety vs, r2)

/-- `BinMap::read` (`bin.rs:577-593`). -/
def binMapRead (bs : List Nat) : Except BinErr (BinMap × List Nat) :=
  match rdMapHeader bs with
  | .error e => .error e
  | .ok ((kt, vt, cnt), r) =>
    match readPairListP kt vt cnt [] r with
    | .error e => .error e
    | .ok (entries, r2) => .ok (.mk kt vt entries, r2)

/-- `BinEntry` (`bin.rs:26-30`); `cls` is the source's `class` field. -/
structure BinEntry where
  cls : Nat
  path : Nat
  values : List BinValue

/-- `BinTree` (`bin.rs:19-23`); a dependency is the byte list of its
name string. -/
structure BinTree where
  dependencies : List (List Nat)
  entries : List BinEntry

/-- `BinEntry::read` (`bin.rs:196-211`): 4-byte declared size (read and
then never used), 4-byte path, 2-byte value count, then that many named
values; the class id is supplied by the caller. -/
def binEntryRead (cls : Nat) (bs : List Nat) : Except BinErr (BinEntry × List Nat) :=
  match rdU32 bs with
  | .error e => .error e
  | .ok (_size, r1) =>
    match rdU32 r1 with
    | .error e => .error e
    | .ok (path, r2) =>
      match rdU16 r2 with
      | .error e => .error e
      | .ok (cnt, r3) =>
        match readNamedListP cnt r3 with
        | .error e => .error e
        | .ok (values, r4) => .ok (⟨cls, path, values⟩, r4)

/-- `Σ value.size(false)` over a list (`size(false) = 5 + value_size`). -/
def sumNamedSizes : List BinValue → Nat
  | [] => 0
  | v :: vs => (5 + valueContentSize v) + sumNamedSizes vs

/-- `BinEntry::size` (`bin.rs:229-236`): `6 + Σ value.size(false)`. -/
def binEntrySize (e : BinEntry) : Nat := 6 + sumNamedSizes e.values

/-- `BinEntry::write` (`bin.rs:213-223`): size (as u32), path, value
count (as u16), then the named values. -/
def binEntryWrite (e : BinEntry) : List Nat :=
  u32LE (binEntrySize e) ++ u32LE e.path ++ u16LE e.values.length
    ++ writeNamedList e.values

/-- The UTF-8 bytes of the magic literal `"PROP"`. -/
def propMagic : List Nat := [80, 82, 79, 80]

/-- The dependency loop of `BinReader::read_tree` (`bin.rs:134-138`):
each dependency is a 2-byte length followed by that many string bytes. -/
def readDeps (cnt : Nat) (bs : List Nat) :
    Except BinErr (List (List Nat) × List Nat) :=
  match cnt with
  | 0 => .ok ([], bs)
  | c + 1 =>
    match rdU16 bs with
    | .error e => .error e
    | .ok (len, r1) =>
      match rdStringN len r1 with
      | .error e => .error e
      | .ok (s, r2) =>
        match readDeps c r2 with
        | .error e => .error e
        | .ok (ds, r3) => .ok (s :: ds, r3)

/-- The class-id loop of `BinReader::read_tree` (`bin.rs:145-147`). -/
def readClasses (cnt : Nat) (bs : List Nat) : Except BinErr (List Nat × List Nat) :=
  match cnt with
  | 0 => .ok ([], bs)
  | c + 1 =>
    match rdU32 bs with
    | .error e => .error e
    | .ok (cls, r1) =>
      match readClasses c r1 with
      | .error e => .error e
      | .ok (cs, r2) => .ok (cls :: cs, r2)

/-- The entry-body loop of `BinReader::read_tree` (`bin.rs:149-151`):
each body is matched to its class id by position. -/
def readEntriesFor (classes : List Nat) (bs : List Nat) :
    Except BinErr (List BinEntry × List Nat) :=
  match classes with
  | [] => .ok ([], bs)
  | c :: cs =>
    match binEntryRead c bs with
    | .error e => .error e
    | .ok (e, r1) =>
      match readEntriesFor cs r1 with
      | .error e' => .error e'
      | .ok (es, r2) => .ok (e :: es, r2)

/-- The version-gated dependency section of `BinReader::read_tree`
(`bin.rs:132-139`): for version ≥ 2 a 4-byte dependency count followed by
the dependencies; nothing for version 1. -/
def readDepsSection (version : Nat) (bs : List Nat) :
    Except BinErr (List (List Nat) × List Nat) :=
  if 2 ≤ version then
    match rdU32 bs with
    | .error e => .error e
    | .ok (depCount, r) => readDeps depCount r
  else .ok ([], bs)

/-- `BinReader::read_tree` (`bin.rs:121-157`): magic, version (1 or 2),
dependency list when version ≥ 2, the contiguous class-id array, then the
entry bodies in the same order. -/
def binTreeRead (bs : List Nat) : Except BinErr (BinTree × List Nat) :=
  match rdStringN 4 bs with
  | .error e => .error e
  | .ok (magic, r1) =>
    if magic ≠ propMagic then .error (.invalidData "Invalid magic")
    else
      match rdU32 r1 with
      | .error e => .error e
      | .ok (version, r2) =>
        if version ≠ 1 ∧ version ≠ 2 then .error (.invalidData "Unsupported version")
        else
          match readDepsSection version r2 with
          | .error e => .error e
          | .ok (deps, r4) =>
            match rdU32 r4 with
            | .error e => .error e
            | .ok (entryCount, r5) =>
              match readClasses entryCount r5 with
              | .error e => .error e
              | .ok (classes, r6) =>
                match readEntriesFor classes r6 with
                | .error e => .error e
                | .ok (entries, r7) => .ok (⟨deps, entries⟩, r7)

/-- The dependency loop of `BinWriter::write_tree` (`bin.rs:172-175`):
2-byte length (`dependency.len() as u16`) then the string bytes. -/
def writeDeps : List (List Nat) → List Nat
  | [] => []
  | d :: ds => u16LE d.length ++ d ++ writeDeps ds

/-- The class-id loop of `BinWriter::write_tree` (`bin.rs:178-180`). -/
def writeClasses : List BinEntry → List Nat
  | [] => []
  | e :: es => u32LE e.cls ++ writeClasses es

/-- The entry-body loop of `BinWriter::write_tree` (`bin.rs:181-183`). -/
def writeEntries : List BinEntry → List Nat
  | [] => []
  | e :: es => binEntryWrite e ++ writeEntries es

/-- `BinWriter::write_tree` (`bin.rs:167-186`): magic, version 2 always,
dependency count and list, entry count, class-id array, entry bodies. -/
def binTreeWrite (t : BinTree) : List Nat :=
  propMagic ++ u32LE 2
    ++ u32LE t.dependencies.length ++ writeDeps t.dependencies
    ++ u32LE t.entries.length ++ writeClasses t.entries
    ++ writeEntries t.entries

/-- Key freshness used by the map invariant: every key of the first list
is distinct (by the derived `Eq`) from every key of the second. -/
def freshKeys (acc ps : List (BinValue × BinValue)) : Bool :=
  acc.all (fun p => ps.all (fun q => !beqValue p.1 q.1))

/-- Earlier map keys are distinct (by the derived `Eq`) from all later
ones — the invariant `HashMap` maintains for its key set. -/
def nodupKeys : List (BinValue × BinValue) → Bool
  | [] => true
  | (k, _) :: ps => (!ps.any (fun q => beqValue k q.1)) && nodupKeys ps

mutual
/-- The values `BinValue::read_value` can produce: name and payload bit
patterns in range, strings short and UTF-8 valid, aggregate counts in
range, bare elements carrying name 0 and the declared kind, name-0
structures empty, map keys pairwise distinct. -/
def wfValue : BinValue → Bool
  | .none n => decide (n < 2^32)
  | .boolean n _ => decide (n < 2^32)
  | .sbyte n v => decide (n < 2^32) && decide (v < 2^8)
  | .byte n v => decide (n < 2^32) && decide (v < 2^8)
  | .int16 n v => decide (n < 2^32) && decide (v < 2^16)
  | .uint16 n v => decide (n < 2^32) && decide (v < 2^16)
  | .int32 n v => decide (n < 2^32) && decide (v < 2^32)
  | .uint32 n v => decide (n < 2^32) && decide (v < 2^32)
  | .int64 n v => decide (n < 2^32) && decide (v < 2^64)
  | .uint64 n v => decide (n < 2^32) && decide (v < 2^64)
  | .float n v => decide (n < 2^32) && decide (v < 2^32)
  | .vector2 n v =>
      decide (n < 2^32) && decide (v.x < 2^32) && decide (v.y < 2^32)
  | .vector3 n v =>
      decide (n < 2^32) && decide (v.x < 2^32) && decide (v.y < 2^32)
        && decide (v.z < 2^32)
  | .vector4 n v =>
      decide (n < 2^32) && decide (v.x < 2^32) && decide (v.y < 2^32)
        && decide (v.z < 2^32) && decide (v.w < 2^32)
  | .matrix44 n v =>
      decide (n < 2^32)
        && decide (v.m00 < 2^32) && decide (v.m01 < 2^32)
        && decide (v.m02 < 2^32) && decide (v.m03 < 2^32)
        && decide (v.m10 < 2^32) && decide (v.m11 < 2^32)
        && decide (v.m12 < 2^32) && decide (v.m13 < 2^32)
        && decide (v.m20 < 2^32) && decide (v.m21 < 2^32)
        && decide (v.m22 < 2^32) && decide (v.m23 < 2^32)
        && decide (v.m30 < 2^32) && decide (v.m31 < 2^32)
        && decide (v.m32 < 2^32) && decide (v.m33 < 2^32)
  | .color n v =>
      decide (n < 2^32) && decide (v.r < 2^8) && decide (v.g < 2^8)
        && decide (v.b < 2^8) && decide (v.a < 2^8)
  | .string n s => decide (n < 2^32) && decide (s.length < 2^16) && utf8Valid s
  | .hash n v => decide (n < 2^32) && decide (v < 2^32)
  | .container n (.mk ety vs) =>
      decide (n < 2^32) && decide (vs.length < 2^32) && wfBareList ety vs
  | .container2 n (.mk ety vs) =>
      decide (n < 2^32) && decide (vs.length < 2^32) && wfBareList ety vs
  | .struct n s => decide (n < 2^32) && wfStruct s
  | .embedded n s => decide (n < 2^32) && wfStruct s
  | .link n v => decide (n < 2^32) && decide (v < 2^32)
  | .optional n t v =>
      decide (n < 2^32)
        && (match v with
            | some o => wfValue o && (o.nameOf == 0) && (o.valueTypeOf == t)
            | Option.none => true)
  | .map n (.mk kt vt entries) =>
      decide (n < 2^32) && decide (entries.length < 2^32)
        && wfPairList kt vt entries && nodupKeys entries
  | .flagsBoolean n _ => decide (n < 2^32)

def wfStruct : BinStructure → Bool
  | .mk name fields =>
      decide (name < 2^32)
        && (if name = 0 then fields.isEmpty
            else decide (fields.length < 2^16) && wfNamedList fields)

def wfNamedList : List BinValue → Bool
  | [] => true
  | v :: vs => wfValue v && wfNamedList vs

def wfBareList (ty : BinValueType) : List BinValue → Bool
  | [] => true
  | v :: vs =>
      wfValue v && (v.nameOf == 0) && (v.valueTypeOf == ty) && wfBareList ty vs

def wfPairList (kt vt : BinValueType) : List (BinValue × BinValue) → Bool
  | [] => true
  | (k, v) :: ps =>
      wfValue k && (k.nameOf == 0) && (k.valueTypeOf == kt)
        && wfValue v && (v.nameOf == 0) && (v.valueTypeOf == vt)
        && wfPairList kt vt ps
end

/-- The entries `BinEntry::read` can produce. -/
def wfEntry (e : BinEntry) : Bool :=
  decide (e.cls < 2^32) && decide (e.path < 2^32)
    && decide (e.values.length < 2^16) && wfNamedList e.values

/-- The trees `BinReader::read_tree` can produce. -/
def wfTree (t : BinTree) : Bool :=
  decide (t.dependencies.length < 2^32)
    && t.dependencies.all (fun d => decide (d.length < 2^16) && utf8Valid d)
    && decide (t.entries.length < 2^32)
    && t.entries.all wfEntry

theorem u8LE_length (n : Nat) : (u8LE n).length = 1 := rfl

theorem u16LE_length (n : Nat) : (u16LE n).length = 2 := rfl

theorem u32LE_length (n : Nat) : (u32LE n).length = 4 := rfl

theorem u64LE_length (n : Nat) : (u64LE n).length = 8 := rfl

theorem rdU8_u8LE {n : Nat} {rest : List Nat} (h : n < 256) :
    rdU8 (u8LE n ++ rest) = .ok (n, rest) := by
  simp [u8LE, rdU8, Nat.mod_eq_of_lt h]

theorem rdU16_u16LE {n : Nat} {rest : List Nat} (h : n < 2^16) :
    rdU16 (u16LE n ++ rest) = .ok (n, rest) := by
  simp only [u16LE, List.cons_append, List.nil_append, rdU16, Except.ok.injEq,
    Prod.mk.injEq, and_true]
  omega

theorem rdU32_u32LE {n : Nat} {rest : List Nat} (h : n < 2^32) :
    rdU32 (u32LE n ++ rest) = .ok (n, rest) := by
  simp only [u32LE, List.cons_append, List.nil_append, rdU32, Except.ok.injEq,
    Prod.mk.injEq, and_true]
  omega

theorem rdU64_u64LE {n : Nat} {rest : List Nat} (h : n < 2^64) :
    rdU64 (u64LE n ++ rest) = .ok (n, rest) := by
  simp only [u64LE, List.cons_append, List.nil_append, rdU64, Except.ok.injEq,
    Prod.mk.injEq, and_true]
  omega

theorem rdStringN_exact {s : List Nat} {rest : List Nat} (hv : utf8Valid s = true) :
    rdStringN s.length (s ++ rest) = .ok (s, rest) := by
  unfold rdStringN rdBytes
  rw [if_pos (by simp)]
  simp [List.take_left, List.drop_left, hv]

theorem packValueType_lt (ty : BinValueType) : packValueType ty < 256 := by
  cases ty <;> decide

theorem unpack_pack (ty : BinValueType) :
    unpackValueType (packValueType ty) = .ok ty := by
  cases ty <;> rfl

mutual
theorem writeBare_len : ∀ (v : BinValue),
    (writeBareValue v).length = valueContentSize v
  | .none _ => by simp [writeBareValue, valueContentSize]
  | .boolean _ b => by simp [writeBareValue, valueContentSize, u8LE]
  | .sbyte _ v => by simp [writeBareValue, valueContentSize, u8LE]
  | .byte _ v => by simp [writeBareValue, valueContentSize, u8LE]
  | .int16 _ v => by simp [writeBareValue, valueContentSize, u16LE]
  | .uint16 _ v => by simp [writeBareValue, valueContentSize, u16LE]
  | .int32 _ v => by simp [writeBareValue, valueContentSize, u32LE]
  | .uint32 _ v => by simp [writeBareValue, valueContentSize, u32LE]
  | .int64 _ v => by simp [writeBareValue, valueContentSize, u64LE]
  | .uint64 _ v => by simp [writeBareValue, valueContentSize, u64LE]
  | .float _ v => by simp [writeBareValue, valueContentSize, u32LE]
  | .vector2 _ v => by simp [writeBareValue, valueContentSize, u32LE]
  | .vector3 _ v => by simp [writeBareValue, valueContentSize, u32LE]
  | .vector4 _ v => by simp [writeBareValue, valueContentSize, u32LE]
  | .matrix44 _ v => by simp [writeBareValue, valueContentSize, u32LE]
  | .color _ v => by simp [writeBareValue, valueContentSize, u8LE]
  | .string _ s => by simp [writeBareValue, valueContentSize, u16LE]
  | .hash _ v => by simp [writeBareValue, valueContentSize, u32LE]
  | .container _ c => by
      have := writeContainer_len c
      simp [writeBareValue, valueContentSize, this]
  | .container2 _ c => by
      have := writeContainer_len c
      simp [writeBareValue, valueContentSize, this]
  | .struct _ s => by
      have := writeStructure_len s
      simp [writeBareValue, valueContentSize, this]
  | .embedded _ s => by
      have := writeStructure_len s
      simp [writeBareValue, valueContentSize, this]
  | .link _ v => by simp [writeBareValue, valueContentSize, u32LE]
  | .optional _ t (some o) => by
      have := writeBare_len o
      simp [writeBareValue, valueContentSize, u8LE, this]
      omega
  | .optional _ t Option.none => by
      simp [writeBareValue, valueContentSize, u8LE]
  | .map _ m => by
      have := writeMap_len m
      simp [writeBareValue, valueContentSize, this]
  | .flagsBoolean _ b => by simp [writeBareValue, valueContentSize, u8LE]

theorem writeContainer_len : ∀ (c : BinContainer),
    (writeContainer c).length = containerSize c
  | .mk ty vs => by
      have := writeBareList_len vs
      simp [writeContainer, containerSize, u8LE, u32LE]
      omega

theorem writeStructure_len : ∀ (s : BinStructure),
    (writeStructure s).length = structSize s
  | .mk name fields => by
      by_cases h : name = 0
      · simp [writeStructure, structSize, h, u32LE]
      · have := writeNamedList_len fields
        simp [writeStructure, structSize, h, u32LE, u16LE]
        omega

theorem writeMap_len : ∀ (m : BinMap), (writeMap m).length = mapSize m
  | .mk kt vt ps => by
      have := writePairList_len ps
      simp [writeMap, mapSize, u8LE, u32LE]
      omega

theorem writeNamedList_len : ∀ (vs : List BinValue),
    (writeNamedList vs).length + 2 = structContentSize vs
  | [] => by simp [writeNamedList, structContentSize]
  | v :: vs => by
      have h1 := writeBare_len v
      have h2 := writeNamedList_len vs
      simp [writeNamedList, structContentSize, u32LE, u8LE]
      omega

theorem writeBareList_len : ∀ (vs : List BinValue),
    (writeBareList vs).length + 4 = containerContentSize vs
  | [] => by simp [writeBareList, containerContentSize]
  | v :: vs => by
      have h1 := writeBare_len v
      have h2 := writeBareList_len vs
      simp [writeBareList, containerContentSize]
      omega

theorem writePairList_len : ∀ (ps : List (BinValue × BinValue)),
    (writePairList ps).length + 4 = mapContentSize ps
  | [] => by simp [writePairList, mapContentSize]
  | (k, v) :: ps => by
      have h1 := writeBare_len k
      have h2 := writeBare_len v
      have h3 := writePairList_len ps
      simp [writePairList, mapContentSize]
      omega
end

theorem writeNamed_len (v : BinValue) :
    (writeNamedValue v).length = 5 + valueContentSize v := by
  have := writeBare_len v
  simp [writeNamedValue, u32LE, u8LE]
  omega

theorem writeNamedList_len_sum : ∀ (vs : List BinValue),
    (writeNamedList vs).length = sumNamedSizes vs
  | [] => by simp [writeNamedList, sumNamedSizes]
  | v :: vs => by
      have h1 := writeBare_len v
      have h2 := writeNamedList_len_sum vs
      simp [writeNamedList, sumNamedSizes, u32LE, u8LE]
      omega

theorem readNamedListP_zero (bs : List Nat) : readNamedListP 0 bs = .ok ([], bs) := by
  unfold readNamedListP
  simp [readNamedList]

theorem readNamedListP_succ (c : Nat) (bs : List Nat) :
    readNamedListP (c + 1) bs =
      match binValueRead bs with
      | .error e => .error e
      | .ok (v, r1) =>
        match readNamedListP c r1 with
        | .error e => .error e
        | .ok (vs, r2) => .ok (v :: vs, r2) := by
  unfold readNamedListP binValueRead
  simp only [readNamedList]
  cases h1 : readNamedValue bs with
  | error e => rfl
  | ok p =>
    obtain ⟨v, r1⟩ := p
    dsimp only
    cases h2 : readNamedList c r1.val with
    | error e => rfl
    | ok q => rfl

theorem readBareListP_zero (ty : BinValueType) (bs : List Nat) :
    readBareListP ty 0 bs = .ok ([], bs) := by
  unfold readBareListP
  simp [readBareList]

theorem readBareListP_succ (ty : BinValueType) (c : Nat) (bs : List Nat) :
    readBareListP ty (c + 1) bs =
      match binValueReadValue 0 ty bs with
      | .error e => .error e
      | .ok (v, r1) =>
        match readBareListP ty c r1 with
        | .error e => .error e
        | .ok (vs, r2) => .ok (v :: vs, r2) := by
  unfold readBareListP binValueReadValue
  simp only [readBareList]
  cases h1 : readValueBody 0 ty bs with
  | error e => rfl
  | ok p =>
    obtain ⟨v, r1⟩ := p
    dsimp only
    cases h2 : readBareList ty c r1.val with
    | error e => rfl
    | ok q => rfl

theorem readPairListP_zero (kt vt : BinValueType)
    (acc : List (BinValue × BinValue)) (bs : List Nat) :
    readPairListP kt vt 0 acc bs = .ok (acc, bs) := by
  unfold readPairListP
  simp [readPairList]

theorem readPairListP_succ (kt vt : BinValueType) (c : Nat)
    (acc : List (BinValue × BinValue)) (bs : List Nat) :
    readPairListP kt vt (c + 1) acc bs =
      match binValueReadValue 0 kt bs with
      | .error e => .error e
      | .ok (k, r1) =>
        match binValueReadValue 0 vt r1 with
        | .error e => .error e
        | .ok (v, r2) =>
          match readPairListP kt vt c (insertPair acc k v) r2 with
          | .error e => .error e
          | .ok (es, r3) => .ok (es, r3) := by
  unfold readPairListP binValueReadValue
  simp only [readPairList]
  cases h1 : readValueBody 0 kt bs with
  | error e => rfl
  | ok p =>
    obtain ⟨k, r1⟩ := p
    dsimp only
    cases h2 : readValueBody 0 vt r1.val with
    | error e => rfl
    | ok q =>
      obtain ⟨v, r2⟩ := q
      dsimp only
      cases h3 : readPairList kt vt c (insertPair acc k v) r2.val with
      | error e => rfl
      | ok w => rfl


theorem readNamedListP_ok_iff {cnt : Nat} {bs : List Nat} {vs : List BinValue}
    {r : List Nat} :
    readNamedListP cnt bs = .ok (vs, r) ↔
      ∃ pf : r.length ≤ bs.length, readNamedList cnt bs = .ok (vs, ⟨r, pf⟩) := by
  unfold readNamedListP
  cases h : readNamedList cnt bs with
  | error e => simp
  | ok p =>
    obtain ⟨vs', s⟩ := p
    obtain ⟨rv, rp⟩ := s
    simp only [Except.ok.injEq, Prod.mk.injEq, Subtype.mk.injEq]
    constructor
    · rintro ⟨h1, h2⟩
      subst h1 h2
      exact ⟨rp, rfl, rfl⟩
    · rintro ⟨pf, h1, h2⟩
      subst h1 h2
      exact ⟨rfl, rfl⟩

theorem readBareListP_ok_iff {ty : BinValueType} {cnt : Nat} {bs : List Nat}
    {vs : List BinValue} {r : List Nat} :
    readBareListP ty cnt bs = .ok (vs, r) ↔
      ∃ pf : r.length ≤ bs.length, readBareList ty cnt bs = .ok (vs, ⟨r, pf⟩) := by
  unfold readBareListP
  cases h : readBareList ty cnt bs with
  | error e => simp
  | ok p =>
    obtain ⟨vs', s⟩ := p
    obtain ⟨rv, rp⟩ := s
    simp only [Except.ok.injEq, Prod.mk.injEq, Subtype.mk.injEq]
    constructor
    · rintro ⟨h1, h2⟩
      subst h1 h2
      exact ⟨rp, rfl, rfl⟩
    · rintro ⟨pf, h1, h2⟩
      subst h1 h2
      exact ⟨rfl, rfl⟩

theorem readPairListP_ok_iff {kt vt : BinValueType} {cnt : Nat}
    {acc : List (BinValue × BinValue)} {bs : List Nat}
    {ps : List (BinValue × BinValue)} {r : List Nat} :
    readPairListP kt vt cnt acc bs = .ok (ps, r) ↔
      ∃ pf : r.length ≤ bs.length,
        readPairList kt vt cnt acc bs = .ok (ps, ⟨r, pf⟩) := by
  unfold readPairListP
  cases h : readPairList kt vt cnt acc bs with
  | error e => simp
  | ok p =>
    obtain ⟨ps', s⟩ := p
    obtain ⟨rv, rp⟩ := s
    simp only [Except.ok.injEq, Prod.mk.injEq, Subtype.mk.injEq]
    constructor
    · rintro ⟨h1, h2⟩
      subst h1 h2
      exact ⟨rp, rfl, rfl⟩
    · rintro ⟨pf, h1, h2⟩
      subst h1 h2
      exact ⟨rfl, rfl⟩

theorem binValueReadValue_ok_iff {name : Nat} {ty : BinValueType} {bs : List Nat}
    {v : BinValue} {r : List Nat} :
    binValueReadValue name ty bs = .ok (v, r) ↔
      ∃ pf : r.length ≤ bs.length, readValueBody name ty bs = .ok (v, ⟨r, pf⟩) := by
  unfold binValueReadValue
  cases h : readValueBody name ty bs with
  | error e => simp
  | ok p =>
    obtain ⟨v', s⟩ := p
    obtain ⟨rv, rp⟩ := s
    simp only [Except.ok.injEq, Prod.mk.injEq, Subtype.mk.injEq]
    constructor
    · rintro ⟨h1, h2⟩
      subst h1 h2
      exact ⟨rp, rfl, rfl⟩
    · rintro ⟨pf, h1, h2⟩
      subst h1 h2
      exact ⟨rfl, rfl⟩

theorem binValueRead_ok_iff {bs : List Nat} {v : BinValue} {r : List Nat} :
    binValueRead bs = .ok (v, r) ↔
      ∃ pf : r.length ≤ bs.length, readNamedValue bs = .ok (v, ⟨r, pf⟩) := by
  unfold binValueRead
  cases h : readNamedValue bs with
  | error e => simp
  | ok p =>
    obtain ⟨v', s⟩ := p
    obtain ⟨rv, rp⟩ := s
    simp only [Except.ok.injEq, Prod.mk.injEq, Subtype.mk.injEq]
    constructor
    · rintro ⟨h1, h2⟩
      subst h1 h2
      exact ⟨rp, rfl, rfl⟩
    · rintro ⟨pf, h1, h2⟩
      subst h1 h2
      exact ⟨rfl, rfl⟩

theorem rdVec2_write (v : FVec2) (rest : List Nat)
    (hx : v.x < 2^32) (hy : v.y < 2^32) :
    rdVec2 (u32LE v.x ++ (u32LE v.y ++ rest)) = .ok (v, rest) := by
  unfold rdVec2
  simp only [rdU32_u32LE hx, rdU32_u32LE hy]

theorem rdVec3_write (v : FVec3) (rest : List Nat)
    (hx : v.x < 2^32) (hy : v.y < 2^32) (hz : v.z < 2^32) :
    rdVec3 (u32LE v.x ++ (u32LE v.y ++ (u32LE v.z ++ rest))) = .ok (v, rest) := by
  unfold rdVec3
  simp only [rdU32_u32LE hx, rdU32_u32LE hy, rdU32_u32LE hz]

theorem rdVec4_write (v : FVec4) (rest : List Nat)
    (hx : v.x < 2^32) (hy : v.y < 2^32) (hz : v.z < 2^32) (hw : v.w < 2^32) :
    rdVec4 (u32LE v.x ++ (u32LE v.y ++ (u32LE v.z ++ (u32LE v.w ++ rest)))) =
      .ok (v, rest) := by
  unfold rdVec4
  simp only [rdU32_u32LE hx, rdU32_u32LE hy, rdU32_u32LE hz, rdU32_u32LE hw]

theorem rdColor_write (v : FColor) (rest : List Nat)
    (hr : v.r < 2^8) (hg : v.g < 2^8) (hb : v.b < 2^8) (ha : v.a < 2^8) :
    rdColor (u8LE v.r ++ (u8LE v.g ++ (u8LE v.b ++ (u8LE v.a ++ rest)))) =
      .ok (v, rest) := by
  unfold rdColor
  simp only [rdU8_u8LE hr, rdU8_u8LE hg, rdU8_u8LE hb, rdU8_u8LE ha]

theorem rdU32_u32LE_mod (n : Nat) {rest : List Nat} :
    rdU32 (u32LE n ++ rest) = .ok (n % 2^32, rest) := by
  simp only [u32LE, List.cons_append, List.nil_append, rdU32, Except.ok.injEq,
    Prod.mk.injEq, and_true]
  omega

theorem rdMat44_write (v : FMat44) (rest : List Nat)
    (h00 : v.m00 < 2^32) (h01 : v.m01 < 2^32) (h02 : v.m02 < 2^32)
    (h03 : v.m03 < 2^32) (h10 : v.m10 < 2^32) (h11 : v.m11 < 2^32)
    (h12 : v.m12 < 2^32) (h13 : v.m13 < 2^32) (h20 : v.m20 < 2^32)
    (h21 : v.m21 < 2^32) (h22 : v.m22 < 2^32) (h23 : v.m23 < 2^32)
    (h30 : v.m30 < 2^32) (h31 : v.m31 < 2^32) (h32 : v.m32 < 2^32)
    (h33 : v.m33 < 2^32) :
    rdMat44 (u32LE v.m00 ++ (u32LE v.m01 ++ (u32LE v.m02 ++ (u32LE v.m03
        ++ (u32LE v.m10 ++ (u32LE v.m11 ++ (u32LE v.m12 ++ (u32LE v.m13
        ++ (u32LE v.m20 ++ (u32LE v.m21 ++ (u32LE v.m22 ++ (u32LE v.m23
        ++ (u32LE v.m30 ++ (u32LE v.m31 ++ (u32LE v.m32 ++ (u32LE v.m33
        ++ rest)))))))))))))))) = .ok (v, rest) := by
  unfold rdMat44 rdVec4
  simp only [rdU32_u32LE h00, rdU32_u32LE h01, rdU32_u32LE h02,
    rdU32_u32LE h03, rdU32_u32LE h10, rdU32_u32LE h11, rdU32_u32LE h12,
    rdU32_u32LE h13, rdU32_u32LE h20, rdU32_u32LE h21, rdU32_u32LE h22,
    rdU32_u32LE h23, rdU32_u32LE h30, rdU32_u32LE h31, rdU32_u32LE h32,
    rdU32_u32LE h33]

theorem rdNamedHeader_write (n : Nat) (ty : BinValueType) (rest : List Nat)
    (hn : n < 2^32) :
    rdNamedHeader (u32LE n ++ (u8LE (packValueType ty) ++ rest)) =
      .ok ((n, ty), rest) := by
  unfold rdNamedHeader
  simp only [rdU32_u32LE hn, rdU8_u8LE (packValueType_lt ty), unpack_pack]

theorem rdContainerHeader_write (ty : BinValueType) (sz cnt : Nat)
    (rest : List Nat) (hcnt : cnt < 2^32) :
    rdContainerHeader (u8LE (packValueType ty) ++ (u32LE sz ++ (u32LE cnt ++ rest))) =
      .ok ((ty, cnt), rest) := by
  unfold rdContainerHeader
  simp only [rdU8_u8LE (packValueType_lt ty), unpack_pack, rdU32_u32LE_mod,
    rdU32_u32LE hcnt]

theorem rdMapHeader_write (kt vt : BinValueType) (sz cnt : Nat)
    (rest : List Nat) (hcnt : cnt < 2^32) :
    rdMapHeader (u8LE (packValueType kt) ++ (u8LE (packValueType vt)
        ++ (u32LE sz ++ (u32LE cnt ++ rest)))) = .ok ((kt, vt, cnt), rest) := by
  unfold rdMapHeader
  simp only [rdU8_u8LE (packValueType_lt kt), rdU8_u8LE (packValueType_lt vt),
    unpack_pack, rdU32_u32LE_mod, rdU32_u32LE hcnt]

theorem rdStructHeader_write0 (rest : List Nat) :
    rdStructHeader (u32LE 0 ++ rest) = .ok ((0, Option.none), rest) := by
  unfold rdStructHeader
  simp [rdU32_u32LE (show 0 < 2^32 by decide)]

theorem rdStructHeader_writePos (n sz cnt : Nat) (rest : List Nat)
    (hn0 : n ≠ 0) (hn : n < 2^32) (hcnt : cnt < 2^16) :
    rdStructHeader (u32LE n ++ (u32LE sz ++ (u16LE cnt ++ rest))) =
      .ok ((n, some cnt), rest) := by
  unfold rdStructHeader
  simp only [rdU32_u32LE hn, rdU32_u32LE_mod, rdU16_u16LE hcnt]
  simp [hn0]

theorem rdOptHeader_write (ty : BinValueType) (fl : Nat) (rest : List Nat)
    (hfl : fl < 256) :
    rdOptHeader (u8LE (packValueType ty) ++ (u8LE fl ++ rest)) =
      .ok ((ty, fl != 0), rest) := by
  unfold rdOptHeader
  simp only [rdU8_u8LE (packValueType_lt ty), unpack_pack, rdU8_u8LE hfl]

theorem rdU8S_write {n : Nat} {rest : List Nat} (h : n < 256) :
    rdU8S (u8LE n ++ rest) = .ok (n, ⟨rest, by simp only [u8LE, u16LE, u32LE, u64LE, List.cons_append, List.nil_append, List.length_cons, List.length_append]; omega⟩) := by
  simp [rdU8S, u8LE, Nat.mod_eq_of_lt h]

theorem rdU16S_write {n : Nat} {rest : List Nat} (h : n < 2^16) :
    rdU16S (u16LE n ++ rest) = .ok (n, ⟨rest, by simp only [u8LE, u16LE, u32LE, u64LE, List.cons_append, List.nil_append, List.length_cons, List.length_append]; omega⟩) := by
  simp only [u16LE, List.cons_append, List.nil_append, rdU16S, Except.ok.injEq,
    Prod.mk.injEq, Subtype.mk.injEq, and_true]
  omega

theorem rdU32S_write {n : Nat} {rest : List Nat} (h : n < 2^32) :
    rdU32S (u32LE n ++ rest) = .ok (n, ⟨rest, by simp only [u8LE, u16LE, u32LE, u64LE, List.cons_append, List.nil_append, List.length_cons, List.length_append]; omega⟩) := by
  simp only [u32LE, List.cons_append, List.nil_append, rdU32S, Except.ok.injEq,
    Prod.mk.injEq, Subtype.mk.injEq, and_true]
  omega

theorem rdU32S_write_mod (n : Nat) {rest : List Nat} :
    rdU32S (u32LE n ++ rest) = .ok (n % 2^32, ⟨rest, by simp only [u8LE, u16LE, u32LE, u64LE, List.cons_append, List.nil_append, List.length_cons, List.length_append]; omega⟩) := by
  simp only [u32LE, List.cons_append, List.nil_append, rdU32S, Except.ok.injEq,
    Prod.mk.injEq, Subtype.mk.injEq, and_true]
  omega

theorem rdU64S_write {n : Nat} {rest : List Nat} (h : n < 2^64) :
    rdU64S (u64LE n ++ rest) = .ok (n, ⟨rest, by simp only [u8LE, u16LE, u32LE, u64LE, List.cons_append, List.nil_append, List.length_cons, List.length_append]; omega⟩) := by
  simp only [u64LE, List.cons_append, List.nil_append, rdU64S, Except.ok.injEq,
    Prod.mk.injEq, Subtype.mk.injEq, and_true]
  omega

theorem rdStringNS_write {s : List Nat} {rest : List Nat}
    (hv : utf8Valid s = true) :
    rdStringNS s.length (s ++ rest) = .ok (s, ⟨rest, by simp⟩) := by
  unfold rdStringNS
  split
  · rename_i e heq
    rw [rdStringN_exact hv] at heq
    simp at heq
  · rename_i s' r heq
    rw [rdStringN_exact hv] at heq
    simp only [Except.ok.injEq, Prod.mk.injEq] at heq ⊢
    obtain ⟨h1, h2⟩ := heq
    subst h1 h2
    simp

theorem rdVec2S_write (v : FVec2) {rest : List Nat}
    (hx : v.x < 2^32) (hy : v.y < 2^32) :
    rdVec2S (u32LE v.x ++ (u32LE v.y ++ rest)) =
      .ok (v, ⟨rest, by simp only [u8LE, u16LE, u32LE, u64LE, List.cons_append, List.nil_append, List.length_cons, List.length_append]; omega⟩) := by
  unfold rdVec2S
  simp only [rdU32S_write hx, rdU32S_write hy]

theorem rdVec3S_write (v : FVec3) {rest : List Nat}
    (hx : v.x < 2^32) (hy : v.y < 2^32) (hz : v.z < 2^32) :
    rdVec3S (u32LE v.x ++ (u32LE v.y ++ (u32LE v.z ++ rest))) =
      .ok (v, ⟨rest, by simp only [u8LE, u16LE, u32LE, u64LE, List.cons_append, List.nil_append, List.length_cons, List.length_append]; omega⟩) := by
  unfold rdVec3S
  simp only [rdU32S_write hx, rdU32S_write hy, rdU32S_write hz]

theorem rdVec4S_write (v : FVec4) {rest : List Nat}
    (hx : v.x < 2^32) (hy : v.y < 2^32) (hz : v.z < 2^32) (hw : v.w < 2^32) :
    rdVec4S (u32LE v.x ++ (u32LE v.y ++ (u32LE v.z ++ (u32LE v.w ++ rest)))) =
      .ok (v, ⟨rest, by simp only [u8LE, u16LE, u32LE, u64LE, List.cons_append, List.nil_append, List.length_cons, List.length_append]; omega⟩) := by
  unfold rdVec4S
  simp only [rdU32S_write hx, rdU32S_write hy, rdU32S_write hz, rdU32S_write hw]

theorem rdColorS_write (v : FColor) {rest : List Nat}
    (hr : v.r < 2^8) (hg : v.g < 2^8) (hb : v.b < 2^8) (ha : v.a < 2^8) :
    rdColorS (u8LE v.r ++ (u8LE v.g ++ (u8LE v.b ++ (u8LE v.a ++ rest)))) =
      .ok (v, ⟨rest, by simp only [u8LE, u16LE, u32LE, u64LE, List.cons_append, List.nil_append, List.length_cons, List.length_append]; omega⟩) := by
  unfold rdColorS
  simp only [rdU8S_write hr, rdU8S_write hg, rdU8S_write hb, rdU8S_write ha]

theorem rdMat44S_write (v : FMat44) {rest : List Nat}
    (h00 : v.m00 < 2^32) (h01 : v.m01 < 2^32) (h02 : v.m02 < 2^32)
    (h03 : v.m03 < 2^32) (h10 : v.m10 < 2^32) (h11 : v.m11 < 2^32)
    (h12 : v.m12 < 2^32) (h13 : v.m13 < 2^32) (h20 : v.m20 < 2^32)
    (h21 : v.m21 < 2^32) (h22 : v.m22 < 2^32) (h23 : v.m23 < 2^32)
    (h30 : v.m30 < 2^32) (h31 : v.m31 < 2^32) (h32 : v.m32 < 2^32)
    (h33 : v.m33 < 2^32) :
    rdMat44S (u32LE v.m00 ++ (u32LE v.m01 ++ (u32LE v.m02 ++ (u32LE v.m03
        ++ (u32LE v.m10 ++ (u32LE v.m11 ++ (u32LE v.m12 ++ (u32LE v.m13
        ++ (u32LE v.m20 ++ (u32LE v.m21 ++ (u32LE v.m22 ++ (u32LE v.m23
        ++ (u32LE v.m30 ++ (u32LE v.m31 ++ (u32LE v.m32 ++ (u32LE v.m33
        ++ rest)))))))))))))))) = .ok (v, ⟨rest, by simp only [u8LE, u16LE, u32LE, u64LE, List.cons_append, List.nil_append, List.length_cons, List.length_append]; omega⟩) := by
  unfold rdMat44S rdVec4S
  simp only [rdU32S_write h00, rdU32S_write h01, rdU32S_write h02,
    rdU32S_write h03, rdU32S_write h10, rdU32S_write h11, rdU32S_write h12,
    rdU32S_write h13, rdU32S_write h20, rdU32S_write h21, rdU32S_write h22,
    rdU32S_write h23, rdU32S_write h30, rdU32S_write h31, rdU32S_write h32,
    rdU32S_write h33]

theorem rdNamedHeaderS_write {n : Nat} (ty : BinValueType) {rest : List Nat}
    (hn : n < 2^32) :
    rdNamedHeaderS (u32LE n ++ (u8LE (packValueType ty) ++ rest)) =
      .ok ((n, ty), ⟨rest, by simp only [u8LE, u16LE, u32LE, u64LE, List.cons_append, List.nil_append, List.length_cons, List.length_append]; omega⟩) := by
  unfold rdNamedHeaderS
  simp only [rdU32S_write hn, rdU8S_write (packValueType_lt ty), unpack_pack]

theorem rdContainerHeaderS_write (ty : BinValueType) (sz : Nat) {cnt : Nat}
    {rest : List Nat} (hcnt : cnt < 2^32) :
    rdContainerHeaderS (u8LE (packValueType ty)
        ++ (u32LE sz ++ (u32LE cnt ++ rest))) =
      .ok ((ty, cnt), ⟨rest, by simp only [u8LE, u16LE, u32LE, u64LE, List.cons_append, List.nil_append, List.length_cons, List.length_append]; omega⟩) := by
  unfold rdContainerHeaderS
  simp only [rdU8S_write (packValueType_lt ty), unpack_pack, rdU32S_write_mod,
    rdU32S_write hcnt]

theorem rdMapHeaderS_write (kt vt : BinValueType) (sz : Nat) {cnt : Nat}
    {rest : List Nat} (hcnt : cnt < 2^32) :
    rdMapHeaderS (u8LE (packValueType kt) ++ (u8LE (packValueType vt)
        ++ (u32LE sz ++ (u32LE cnt ++ rest)))) =
      .ok ((kt, vt, cnt), ⟨rest, by simp only [u8LE, u16LE, u32LE, u64LE, List.cons_append, List.nil_append, List.length_cons, List.length_append]; omega⟩) := by
  unfold rdMapHeaderS
  simp only [rdU8S_write (packValueType_lt kt), rdU8S_write (packValueType_lt vt),
    unpack_pack, rdU32S_write_mod, rdU32S_write hcnt]

theorem rdStructHeaderS_write0 {rest : List Nat} :
    rdStructHeaderS (u32LE 0 ++ rest) = .ok ((0, Option.none), ⟨rest, by simp only [u8LE, u16LE, u32LE, u64LE, List.cons_append, List.nil_append, List.length_cons, List.length_append]; omega⟩) := by
  unfold rdStructHeaderS
  simp [rdU32S_write (show 0 < 2^32 by decide)]

theorem rdStructHeaderS_writePos {n : Nat} (sz : Nat) {cnt : Nat}
    {rest : List Nat} (hn0 : n ≠ 0) (hn : n < 2^32) (hcnt : cnt < 2^16) :
    rdStructHeaderS (u32LE n ++ (u32LE sz ++ (u16LE cnt ++ rest))) =
      .ok ((n, some cnt), ⟨rest, by simp only [u8LE, u16LE, u32LE, u64LE, List.cons_append, List.nil_append, List.length_cons, List.length_append]; omega⟩) := by
  unfold rdStructHeaderS
  simp only [rdU32S_write hn, rdU32S_write_mod, rdU16S_write hcnt]
  simp [hn0]

theorem rdOptHeaderS_write (ty : BinValueType) {fl : Nat} {rest : List Nat}
    (hfl : fl < 256) :
    rdOptHeaderS (u8LE (packValueType ty) ++ (u8LE fl ++ rest)) =
      .ok ((ty, fl != 0), ⟨rest, by simp only [u8LE, u16LE, u32LE, u64LE, List.cons_append, List.nil_append, List.length_cons, List.length_append]; omega⟩) := by
  unfold rdOptHeaderS
  simp only [rdU8S_write (packValueType_lt ty), unpack_pack, rdU8S_write hfl]

theorem wf_name_lt : ∀ {v : BinValue}, wfValue v = true → v.nameOf < 2^32 := by
  intro v hw
  cases v with
  | container nm c =>
      cases c
      simp_all [wfValue, BinValue.nameOf, Bool.and_eq_true, decide_eq_true_eq]
  | container2 nm c =>
      cases c
      simp_all [wfValue, BinValue.nameOf, Bool.and_eq_true, decide_eq_true_eq]
  | map nm m =>
      cases m
      simp_all [wfValue, BinValue.nameOf, Bool.and_eq_true, decide_eq_true_eq]
  | optional nm t o =>
      cases o <;>
        simp_all [wfValue, BinValue.nameOf, Bool.and_eq_true, decide_eq_true_eq]
  | _ =>
      simp_all [wfValue, BinValue.nameOf, Bool.and_eq_true, decide_eq_true_eq]

theorem allNot_any_false {α : Type} (l : List α) (f : α → Bool)
    (h : l.all (fun x => !f x) = true) : l.any f = false := by
  induction l with
  | nil => rfl
  | cons a t ih =>
      simp only [List.all_cons, Bool.and_eq_true, Bool.not_eq_true'] at h
      simp [List.any_cons, h.1, ih h.2]

theorem any_false_all_not {α : Type} (l : List α) (f : α → Bool)
    (h : l.any f = false) : l.all (fun x => !f x) = true := by
  induction l with
  | nil => rfl
  | cons a t ih =>
      simp only [List.any_cons, Bool.or_eq_false_iff] at h
      simp [List.all_cons, h.1, ih h.2]

theorem freshKeys_nil (ps : List (BinValue × BinValue)) : freshKeys [] ps = true := rfl

theorem freshKeys_cons {acc ps : List (BinValue × BinValue)} {k v : BinValue}
    (h : freshKeys acc ((k, v) :: ps) = true) :
    acc.any (fun p => beqValue p.1 k) = false ∧ freshKeys acc ps = true := by
  unfold freshKeys at h
  simp only [List.all_eq_true] at h
  constructor
  · apply allNot_any_false
    simp only [List.all_eq_true]
    intro p hp
    exact h p hp (k, v) (List.mem_cons_self _ _)
  · unfold freshKeys
    simp only [List.all_eq_true]
    intro p hp q hq
    exact h p hp q (List.mem_cons_of_mem _ hq)

theorem insertPair_fresh {acc : List (BinValue × BinValue)} {k v : BinValue}
    (h : acc.any (fun p => beqValue p.1 k) = false) :
    insertPair acc k v = acc ++ [(k, v)] := by
  unfold insertPair
  rw [h]
  simp

theorem freshKeys_snoc {acc ps : List (BinValue × BinValue)} {k v : BinValue}
    (h1 : freshKeys acc ps = true) (h2 : ps.all (fun q => !beqValue k q.1) = true) :
    freshKeys (acc ++ [(k, v)]) ps = true := by
  unfold freshKeys at h1 ⊢
  simp only [List.all_append, List.all_cons, List.all_nil, Bool.and_eq_true,
    and_true]
  exact ⟨h1, h2⟩

mutual
theorem rwv : ∀ (v : BinValue) (rest : List Nat), wfValue v = true →
    binValueReadValue v.nameOf v.valueTypeOf (writeBareValue v ++ rest) = .ok (v, rest)
  | .none n, rest, _hw => by
      simp only [BinValue.nameOf, BinValue.valueTypeOf, writeBareValue,
        List.nil_append]
      unfold binValueReadValue
      simp [readValueBody]
  | .boolean n b, rest, _hw => by
      simp only [BinValue.nameOf, BinValue.valueTypeOf]
      unfold binValueReadValue
      cases b <;>
      · simp only [writeBareValue, Bool.false_eq_true, reduceIte]
        simp [readValueBody, rdU8S_write (show (1:Nat) < 256 by decide),
          rdU8S_write (show (0:Nat) < 256 by decide)]
  | .sbyte n v, rest, hw => by
      simp only [wfValue, Bool.and_eq_true, decide_eq_true_eq] at hw
      simp only [BinValue.nameOf, BinValue.valueTypeOf, writeBareValue]
      unfold binValueReadValue
      simp [readValueBody, rdU8S_write hw.2]
  | .byte n v, rest, hw => by
      simp only [wfValue, Bool.and_eq_true, decide_eq_true_eq] at hw
      simp only [BinValue.nameOf, BinValue.valueTypeOf, writeBareValue]
      unfold binValueReadValue
      simp [readValueBody, rdU8S_write hw.2]
  | .int16 n v, rest, hw => by
      simp only [wfValue, Bool.and_eq_true, decide_eq_true_eq] at hw
      simp only [BinValue.nameOf, BinValue.valueTypeOf, writeBareValue]
      unfold binValueReadValue
      simp [readValueBody, rdU16S_write hw.2]
  | .uint16 n v, rest, hw => by
      simp only [wfValue, Bool.and_eq_true, decide_eq_true_eq] at hw
      simp only [BinValue.nameOf, BinValue.valueTypeOf, writeBareValue]
      unfold binValueReadValue
      simp [readValueBody, rdU16S_write hw.2]
  | .int32 n v, rest, hw => by
      simp only [wfValue, Bool.and_eq_true, decide_eq_true_eq] at hw
      simp only [BinValue.nameOf, BinValue.valueTypeOf, writeBareValue]
      unfold binValueReadValue
      simp [readValueBody, rdU32S_write hw.2]
  | .uint32 n v, rest, hw => by
      simp only [wfValue, Bool.and_eq_true, decide_eq_true_eq] at hw
      simp only [BinValue.nameOf, BinValue.valueTypeOf, writeBareValue]
      unfold binValueReadValue
      simp [readValueBody, rdU32S_write hw.2]
  | .int64 n v, rest, hw => by
      simp only [wfValue, Bool.and_eq_true, decide_eq_true_eq] at hw
      simp only [BinValue.nameOf, BinValue.valueTypeOf, writeBareValue]
      unfold binValueReadValue
      simp [readValueBody, rdU64S_write hw.2]
  | .uint64 n v, rest, hw => by
      simp only [wfValue, Bool.and_eq_true, decide_eq_true_eq] at hw
      simp only [BinValue.nameOf, BinValue.valueTypeOf, writeBareValue]
      unfold binValueReadValue
      simp [readValueBody, rdU64S_write hw.2]
  | .float n v, rest, hw => by
      simp only [wfValue, Bool.and_eq_true, decide_eq_true_eq] at hw
      simp only [BinValue.nameOf, BinValue.valueTypeOf, writeBareValue]
      unfold binValueReadValue
      simp [readValueBody, rdU32S_write hw.2]
  | .vector2 n v, rest, hw => by
      simp only [wfValue, Bool.and_eq_true, decide_eq_true_eq] at hw
      obtain ⟨⟨hn, hx⟩, hy⟩ := hw
      simp only [BinValue.nameOf, BinValue.valueTypeOf, writeBareValue,
        List.append_assoc]
      unfold binValueReadValue
      simp [readValueBody, rdVec2S_write v hx hy]
  | .vector3 n v, rest, hw => by
      simp only [wfValue, Bool.and_eq_true, decide_eq_true_eq] at hw
      obtain ⟨⟨⟨hn, hx⟩, hy⟩, hz⟩ := hw
      simp only [BinValue.nameOf, BinValue.valueTypeOf, writeBareValue,
        List.append_assoc]
      unfold binValueReadValue
      simp [readValueBody, rdVec3S_write v hx hy hz]
  | .vector4 n v, rest, hw => by
      simp only [wfValue, Bool.and_eq_true, decide_eq_true_eq] at hw
      obtain ⟨⟨⟨⟨hn, hx⟩, hy⟩, hz⟩, hz4⟩ := hw
      simp only [BinValue.nameOf, BinValue.valueTypeOf, writeBareValue,
        List.append_assoc]
      unfold binValueReadValue
      simp [readValueBody, rdVec4S_write v hx hy hz hz4]
  | .matrix44 n v, rest, hw => by
      simp only [wfValue, Bool.and_eq_true, decide_eq_true_eq] at hw
      obtain ⟨⟨⟨⟨⟨⟨⟨⟨⟨⟨⟨⟨⟨⟨⟨⟨hn, h00⟩, h01⟩, h02⟩, h03⟩, h10⟩, h11⟩, h12⟩,
        h13⟩, h20⟩, h21⟩, h22⟩, h23⟩, h30⟩, h31⟩, h32⟩, h33⟩ := hw
      simp only [BinValue.nameOf, BinValue.valueTypeOf, writeBareValue,
        List.append_assoc]
      unfold binValueReadValue
      simp [readValueBody, rdMat44S_write v h00 h01 h02 h03 h10 h11 h12 h13
        h20 h21 h22 h23 h30 h31 h32 h33]
  | .color n v, rest, hw => by
      simp only [wfValue, Bool.and_eq_true, decide_eq_true_eq] at hw
      obtain ⟨⟨⟨⟨hn, hr⟩, hg⟩, hb⟩, ha⟩ := hw
      simp only [BinValue.nameOf, BinValue.valueTypeOf, writeBareValue,
        List.append_assoc]
      unfold binValueReadValue
      simp [readValueBody, rdColorS_write v hr hg hb ha]
  | .string n s, rest, hw => by
      simp only [wfValue, Bool.and_eq_true, decide_eq_true_eq] at hw
      obtain ⟨⟨hn, hl⟩, hu⟩ := hw
      simp only [BinValue.nameOf, BinValue.valueTypeOf, writeBareValue,
        List.append_assoc]
      unfold binValueReadValue
      simp [readValueBody, rdU16S_write hl, rdStringNS_write hu]
  | .hash n v, rest, hw => by
      simp only [wfValue, Bool.and_eq_true, decide_eq_true_eq] at hw
      simp only [BinValue.nameOf, BinValue.valueTypeOf, writeBareValue]
      unfold binValueReadValue
      simp [readValueBody, rdU32S_write hw.2]
  | .link n v, rest, hw => by
      simp only [wfValue, Bool.and_eq_true, decide_eq_true_eq] at hw
      simp only [BinValue.nameOf, BinValue.valueTypeOf, writeBareValue]
      unfold binValueReadValue
      simp [readValueBody, rdU32S_write hw.2]
  | .container n (.mk ety vs), rest, hw => by
      simp only [wfValue, Bool.and_eq_true, decide_eq_true_eq] at hw
      obtain ⟨⟨hn, hcnt⟩, hbare⟩ := hw
      have hbl := rwBareList ety vs rest hbare
      rw [readBareListP_ok_iff] at hbl
      obtain ⟨pf, hsub⟩ := hbl
      simp only [BinValue.nameOf, BinValue.valueTypeOf, writeBareValue,
        writeContainer, List.append_assoc]
      unfold binValueReadValue
      simp [readValueBody,
        rdContainerHeaderS_write ety (containerContentSize vs) hcnt, hsub]
  | .container2 n (.mk ety vs), rest, hw => by
      simp only [wfValue, Bool.and_eq_true, decide_eq_true_eq] at hw
      obtain ⟨⟨hn, hcnt⟩, hbare⟩ := hw
      have hbl := rwBareList ety vs rest hbare
      rw [readBareListP_ok_iff] at hbl
      obtain ⟨pf, hsub⟩ := hbl
      simp only [BinValue.nameOf, BinValue.valueTypeOf, writeBareValue,
        writeContainer, List.append_assoc]
      unfold binValueReadValue
      simp [readValueBody,
        rdContainerHeaderS_write ety (containerContentSize vs) hcnt, hsub]
  | .struct n (.mk nm fields), rest, hw => by
      simp only [wfValue, Bool.and_eq_true, decide_eq_true_eq] at hw
      obtain ⟨hn, hws⟩ := hw
      simp only [wfStruct, Bool.and_eq_true, decide_eq_true_eq] at hws
      obtain ⟨hnm, hif⟩ := hws
      by_cases h0 : nm = 0
      · rw [if_pos h0] at hif
        subst h0
        have hfe : fields = [] := by
          cases fields with
          | nil => rfl
          | cons a t => simp [List.isEmpty] at hif
        subst hfe
        simp only [BinValue.nameOf, BinValue.valueTypeOf, writeBareValue,
          writeStructure, ne_eq, not_true_eq_false, reduceIte, List.append_nil]
        unfold binValueReadValue
        simp [readValueBody, rdStructHeaderS_write0]
      · rw [if_neg h0] at hif
        simp only [Bool.and_eq_true, decide_eq_true_eq] at hif
        obtain ⟨hlen, hwf⟩ := hif
        have hnl := rwNamedList fields rest hwf
        rw [readNamedListP_ok_iff] at hnl
        obtain ⟨pf, hsub⟩ := hnl
        simp only [BinValue.nameOf, BinValue.valueTypeOf, writeBareValue,
          writeStructure, ne_eq, h0, not_false_eq_true, reduceIte,
          List.append_assoc]
        unfold binValueReadValue
        simp [readValueBody,
          rdStructHeaderS_writePos (structContentSize fields) h0 hnm hlen, hsub]
  | .embedded n (.mk nm fields), rest, hw => by
      simp only [wfValue, Bool.and_eq_true, decide_eq_true_eq] at hw
      obtain ⟨hn, hws⟩ := hw
      simp only [wfStruct, Bool.and_eq_true, decide_eq_true_eq] at hws
      obtain ⟨hnm, hif⟩ := hws
      by_cases h0 : nm = 0
      · rw [if_pos h0] at hif
        subst h0
        have hfe : fields = [] := by
          cases fields with
          | nil => rfl
          | cons a t => simp [List.isEmpty] at hif
        subst hfe
        simp only [BinValue.nameOf, BinValue.valueTypeOf, writeBareValue,
          writeStructure, ne_eq, not_true_eq_false, reduceIte, List.append_nil]
        unfold binValueReadValue
        simp [readValueBody, rdStructHeaderS_write0]
      · rw [if_neg h0] at hif
        simp only [Bool.and_eq_true, decide_eq_true_eq] at hif
        obtain ⟨hlen, hwf⟩ := hif
        have hnl := rwNamedList fields rest hwf
        rw [readNamedListP_ok_iff] at hnl
        obtain ⟨pf, hsub⟩ := hnl
        simp only [BinValue.nameOf, BinValue.valueTypeOf, writeBareValue,
          writeStructure, ne_eq, h0, not_false_eq_true, reduceIte,
          List.append_assoc]
        unfold binValueReadValue
        simp [readValueBody,
          rdStructHeaderS_writePos (structContentSize fields) h0 hnm hlen, hsub]
  | .optional n t (some o), rest, hw => by
      simp only [wfValue, Bool.and_eq_true, decide_eq_true_eq, beq_iff_eq] at hw
      obtain ⟨hn, ⟨hwo, hname⟩, hty⟩ := hw
      have hro := rwv o rest hwo
      rw [hname, hty] at hro
      rw [binValueReadValue_ok_iff] at hro
      obtain ⟨pf, hsub⟩ := hro
      simp only [BinValue.nameOf, BinValue.valueTypeOf, writeBareValue,
        List.append_assoc]
      unfold binValueReadValue
      simp [readValueBody, rdOptHeaderS_write t (show (1:Nat) < 256 by decide),
        hsub]
  | .optional n t Option.none, rest, hw => by
      simp only [BinValue.nameOf, BinValue.valueTypeOf, writeBareValue,
        List.append_assoc]
      unfold binValueReadValue
      simp [readValueBody, rdOptHeaderS_write t (show (0:Nat) < 256 by decide)]
  | .map n (.mk kt vt entries), rest, hw => by
      simp only [wfValue, Bool.and_eq_true, decide_eq_true_eq] at hw
      obtain ⟨⟨⟨hn, hcnt⟩, hwp⟩, hnd⟩ := hw
      have hpl := rwPairList kt vt entries [] rest hwp hnd (freshKeys_nil entries)
      rw [readPairListP_ok_iff] at hpl
      obtain ⟨pf, hsub⟩ := hpl
      simp only [List.nil_append] at hsub
      simp only [BinValue.nameOf, BinValue.valueTypeOf, writeBareValue, writeMap,
        List.append_assoc]
      unfold binValueReadValue
      simp [readValueBody, rdMapHeaderS_write kt vt (mapContentSize entries) hcnt,
        hsub]
  | .flagsBoolean n b, rest, _hw => by
      simp only [BinValue.nameOf, BinValue.valueTypeOf]
      unfold binValueReadValue
      cases b <;>
      · simp only [writeBareValue, Bool.false_eq_true, reduceIte]
        simp [readValueBody, rdU8S_write (show (1:Nat) < 256 by decide),
          rdU8S_write (show (0:Nat) < 256 by decide)]
termination_by v rest _ => (sizeOf v, 0)

theorem rwNamed : ∀ (v : BinValue) (rest : List Nat), wfValue v = true →
    binValueRead (writeNamedValue v ++ rest) = .ok (v, rest)
  | v, rest, hw => by
      have h1 := rwv v rest hw
      rw [binValueReadValue_ok_iff] at h1
      obtain ⟨pf, hsub⟩ := h1
      simp only [writeNamedValue, List.append_assoc]
      unfold binValueRead
      simp [readNamedValue, rdNamedHeaderS_write v.valueTypeOf (wf_name_lt hw),
        hsub]
termination_by v rest _ => (sizeOf v, 1)

theorem rwNamedList : ∀ (vs : List BinValue) (rest : List Nat),
    wfNamedList vs = true →
    readNamedListP vs.length (writeNamedList vs ++ rest) = .ok (vs, rest)
  | [], rest, _ => by simp [writeNamedList, readNamedListP_zero]
  | v :: vs, rest, hw => by
      simp only [wfNamedList, Bool.and_eq_true] at hw
      obtain ⟨hv, hvs⟩ := hw
      have h1 := rwNamed v (writeNamedList vs ++ rest) hv
      have h2 := rwNamedList vs rest hvs
      simp only [writeNamedValue, List.append_assoc] at h1
      simp only [List.length_cons, writeNamedList, List.append_assoc]
      rw [readNamedListP_succ]
      simp only [h1, h2]
termination_by vs rest _ => (sizeOf vs, 0)

theorem rwBareList : ∀ (ty : BinValueType) (vs : List BinValue)
    (rest : List Nat), wfBareList ty vs = true →
    readBareListP ty vs.length (writeBareList vs ++ rest) = .ok (vs, rest)
  | ty, [], rest, _ => by simp [writeBareList, readBareListP_zero]
  | ty, v :: vs, rest, hw => by
      simp only [wfBareList, Bool.and_eq_true, beq_iff_eq] at hw
      obtain ⟨⟨⟨hv, hn0⟩, hty⟩, hvs⟩ := hw
      have h1 := rwv v (writeBareList vs ++ rest) hv
      rw [hn0, hty] at h1
      have h2 := rwBareList ty vs rest hvs
      simp only [List.length_cons, writeBareList, List.append_assoc]
      rw [readBareListP_succ]
      simp only [h1, h2]
termination_by ty vs rest _ => (sizeOf vs, 0)

theorem rwPairList : ∀ (kt vt : BinValueType) (ps : List (BinValue × BinValue))
    (acc : List (BinValue × BinValue)) (rest : List Nat),
    wfPairList kt vt ps = true → nodupKeys ps = true → freshKeys acc ps = true →
    readPairListP kt vt ps.length acc (writePairList ps ++ rest) = .ok (acc ++ ps, rest)
  | kt, vt, [], acc, rest, _, _, _ => by
      simp [writePairList, readPairListP_zero]
  | kt, vt, (k, v) :: ps, acc, rest, hwp, hnd, hfr => by
      simp only [wfPairList, Bool.and_eq_true, beq_iff_eq] at hwp
      obtain ⟨⟨⟨⟨⟨⟨hk, hkn⟩, hkt⟩, hv⟩, hvn⟩, hvt⟩, hps⟩ := hwp
      simp only [nodupKeys, Bool.and_eq_true, Bool.not_eq_true'] at hnd
      obtain ⟨hfk, hnd'⟩ := hnd
      obtain ⟨hany, hfr'⟩ := freshKeys_cons hfr
      have hrk := rwv k (writeBareValue v ++ (writePairList ps ++ rest)) hk
      rw [hkn, hkt] at hrk
      have hrv := rwv v (writePairList ps ++ rest) hv
      rw [hvn, hvt] at hrv
      have hrec := rwPairList kt vt ps (acc ++ [(k, v)]) rest hps hnd'
        (freshKeys_snoc hfr' (any_false_all_not _ _ hfk))
      simp only [List.length_cons, writePairList, List.append_assoc]
      rw [readPairListP_succ]
      simp only [hrk, hrv]
      rw [insertPair_fresh hany]
      simp only [hrec]
      simp
termination_by kt vt ps acc rest _ _ _ => (sizeOf ps, 0)
end

/-- Writing then reading a well-formed structure with `BinStructure::write`
and `BinStructure::read` recovers it exactly. -/
theorem rwStruct (s : BinStructure) (rest : List Nat) (hw : wfStruct s = true) :
    binStructureRead (writeStructure s ++ rest) = .ok (s, rest) := by
  obtain ⟨nm, fields⟩ := s
  simp only [wfStruct, Bool.and_eq_true, decide_eq_true_eq] at hw
  obtain ⟨hnm, hif⟩ := hw
  by_cases h0 : nm = 0
  · rw [if_pos h0] at hif
    subst h0
    have hfe : fields = [] := by
      cases fields with
      | nil => rfl
      | cons a t => simp [List.isEmpty] at hif
    subst hfe
    simp only [writeStructure, ne_eq, not_true_eq_false, reduceIte,
      List.append_nil]
    unfold binStructureRead
    simp [rdStructHeader_write0]
  · rw [if_neg h0] at hif
    simp only [Bool.and_eq_true, decide_eq_true_eq] at hif
    obtain ⟨hlen, hwf⟩ := hif
    have hnl := rwNamedList fields rest hwf
    simp only [writeStructure, ne_eq, h0, not_false_eq_true, reduceIte,
      List.append_assoc]
    unfold binStructureRead
    simp [rdStructHeader_writePos nm (structContentSize fields) fields.length
      (writeNamedList fields ++ rest) h0 hnm hlen, hnl]

/-- Writing then reading a well-formed map payload with `BinMap::write`
and `BinMap::read` recovers it exactly. -/
theorem rwMap (m : BinMap) (rest : List Nat)
    (hwp : wfPairList m.keyType m.valueType m.entries = true)
    (hnd : nodupKeys m.entries = true)
    (hcnt : m.entries.length < 2^32) :
    binMapRead (writeMap m ++ rest) = .ok (m, rest) := by
  obtain ⟨kt, vt, entries⟩ := m
  simp only [BinMap.keyType, BinMap.valueType, BinMap.entries] at hwp hnd hcnt
  have hpl := rwPairList kt vt entries [] rest hwp hnd (freshKeys_nil entries)
  simp only [List.nil_append] at hpl
  simp only [writeMap, List.append_assoc]
  unfold binMapRead
  simp [rdMapHeader_write kt vt (mapContentSize entries) entries.length
    (writePairList entries ++ rest) hcnt, hpl]

theorem rdU8S_bound {bs : List Nat} {v : Nat} {r : RemLt bs}
    (h : rdU8S bs = .ok (v, r)) : v < 2^8 := by
  unfold rdU8S at h
  split at h
  · simp at h
  · simp only [Except.ok.injEq, Prod.mk.injEq] at h
    obtain ⟨h1, -⟩ := h
    subst h1
    omega

theorem rdU16S_bound {bs : List Nat} {v : Nat} {r : RemLt bs}
    (h : rdU16S bs = .ok (v, r)) : v < 2^16 := by
  unfold rdU16S at h
  split at h
  · simp only [Except.ok.injEq, Prod.mk.injEq] at h
    obtain ⟨h1, -⟩ := h
    subst h1
    omega
  · simp at h

theorem rdU32S_bound {bs : List Nat} {v : Nat} {r : RemLt bs}
    (h : rdU32S bs = .ok (v, r)) : v < 2^32 := by
  unfold rdU32S at h
  split at h
  · simp only [Except.ok.injEq, Prod.mk.injEq] at h
    obtain ⟨h1, -⟩ := h
    subst h1
    omega
  · simp at h

theorem rdU64S_bound {bs : List Nat} {v : Nat} {r : RemLt bs}
    (h : rdU64S bs = .ok (v, r)) : v < 2^64 := by
  unfold rdU64S at h
  split at h
  · simp only [Except.ok.injEq, Prod.mk.injEq] at h
    obtain ⟨h1, -⟩ := h
    subst h1
    omega
  · simp at h

theorem rdStringNS_spec {n : Nat} {bs : List Nat} {s : List Nat} {r : Rem bs}
    (h : rdStringNS n bs = .ok (s, r)) : s.length = n ∧ utf8Valid s = true := by
  unfold rdStringNS at h
  split at h
  · simp at h
  · rename_i s' r' heq
    simp only [Except.ok.injEq, Prod.mk.injEq] at h
    obtain ⟨h1, -⟩ := h
    subst h1
    unfold rdStringN at heq
    cases hb : rdBytes n bs with
    | error e => rw [hb] at heq; simp at heq
    | ok p =>
      obtain ⟨s2, r2⟩ := p
      rw [hb] at heq
      dsimp only at heq
      split at heq
      · rename_i hu
        simp only [Except.ok.injEq, Prod.mk.injEq] at heq
        obtain ⟨h2, -⟩ := heq
        subst h2
        refine ⟨?_, hu⟩
        unfold rdBytes at hb
        split at hb
        · rename_i hle
          simp only [Except.ok.injEq, Prod.mk.injEq] at hb
          obtain ⟨h3, -⟩ := hb
          subst h3
          simp [List.length_take]
          omega
        · simp at hb
      · simp at heq

theorem rdVec2S_bound {bs : List Nat} {v : FVec2} {r : RemLt bs}
    (h : rdVec2S bs = .ok (v, r)) : v.x < 2^32 ∧ v.y < 2^32 := by
  unfold rdVec2S at h
  split at h
  · simp at h
  · rename_i x r1 hb1 heq1
    split at h
    · simp at h
    · rename_i y r2 hb2 heq2
      simp only [Except.ok.injEq, Prod.mk.injEq] at h
      obtain ⟨h2, -⟩ := h
      subst h2
      exact ⟨rdU32S_bound heq1, rdU32S_bound heq2⟩

theorem rdVec3S_bound {bs : List Nat} {v : FVec3} {r : RemLt bs}
    (h : rdVec3S bs = .ok (v, r)) : v.x < 2^32 ∧ v.y < 2^32 ∧ v.z < 2^32 := by
  unfold rdVec3S at h
  split at h
  · simp at h
  · rename_i x r1 hb1 heq1
    split at h
    · simp at h
    · rename_i y r2 hb2 heq2
      split at h
      · simp at h
      · rename_i z r3 hb3 heq3
        simp only [Except.ok.injEq, Prod.mk.injEq] at h
        obtain ⟨h4, -⟩ := h
        subst h4
        exact ⟨rdU32S_bound heq1, rdU32S_bound heq2, rdU32S_bound heq3⟩

theorem rdVec4S_bound {bs : List Nat} {v : FVec4} {r : RemLt bs}
    (h : rdVec4S bs = .ok (v, r)) :
    v.x < 2^32 ∧ v.y < 2^32 ∧ v.z < 2^32 ∧ v.w < 2^32 := by
  unfold rdVec4S at h
  split at h
  · simp at h
  · rename_i x r1 hb1 heq1
    split at h
    · simp at h
    · rename_i y r2 hb2 heq2
      split at h
      · simp at h
      · rename_i z r3 hb3 heq3
        split at h
        · simp at h
        · rename_i w r4 hb4 heq4
          simp only [Except.ok.injEq, Prod.mk.injEq] at h
          obtain ⟨h5, -⟩ := h
          subst h5
          exact ⟨rdU32S_bound heq1, rdU32S_bound heq2, rdU32S_bound heq3,
            rdU32S_bound heq4⟩

theorem rdMat44S_bound {bs : List Nat} {v : FMat44} {r : RemLt bs}
    (h : rdMat44S bs = .ok (v, r)) :
    v.m00 < 2^32 ∧ v.m01 < 2^32 ∧ v.m02 < 2^32 ∧ v.m03 < 2^32
      ∧ v.m10 < 2^32 ∧ v.m11 < 2^32 ∧ v.m12 < 2^32 ∧ v.m13 < 2^32
      ∧ v.m20 < 2^32 ∧ v.m21 < 2^32 ∧ v.m22 < 2^32 ∧ v.m23 < 2^32
      ∧ v.m30 < 2^32 ∧ v.m31 < 2^32 ∧ v.m32 < 2^32 ∧ v.m33 < 2^32 := by
  unfold rdMat44S at h
  split at h
  · simp at h
  · rename_i q0 r1 hb1 heq1
    split at h
    · simp at h
    · rename_i q1 r2 hb2 heq2
      split at h
      · simp at h
      · rename_i q2 r3 hb3 heq3
        split at h
        · simp at h
        · rename_i q3 r4 hb4 heq4
          simp only [Except.ok.injEq, Prod.mk.injEq] at h
          obtain ⟨h5, -⟩ := h
          subst h5
          obtain ⟨b0, b1, b2, b3⟩ := rdVec4S_bound heq1
          obtain ⟨c0, c1, c2, c3⟩ := rdVec4S_bound heq2
          obtain ⟨d0, d1, d2, d3⟩ := rdVec4S_bound heq3
          obtain ⟨e0, e1, e2, e3⟩ := rdVec4S_bound heq4
          exact ⟨b0, b1, b2, b3, c0, c1, c2, c3, d0, d1, d2, d3, e0, e1, e2, e3⟩

theorem rdColorS_bound {bs : List Nat} {v : FColor} {r : RemLt bs}
    (h : rdColorS bs = .ok (v, r)) :
    v.r < 2^8 ∧ v.g < 2^8 ∧ v.b < 2^8 ∧ v.a < 2^8 := by
  unfold rdColorS at h
  split at h
  · simp at h
  · rename_i c1 r1 hb1 heq1
    split at h
    · simp at h
    · rename_i c2 r2 hb2 heq2
      split at h
      · simp at h
      · rename_i c3 r3 hb3 heq3
        split at h
        · simp at h
        · rename_i c4 r4 hb4 heq4
          simp only [Except.ok.injEq, Prod.mk.injEq] at h
          obtain ⟨h5, -⟩ := h
          subst h5
          exact ⟨rdU8S_bound heq1, rdU8S_bound heq2, rdU8S_bound heq3,
            rdU8S_bound heq4⟩

theorem rdNamedHeaderS_bound {bs : List Nat} {x : Nat × BinValueType}
    {r : RemLt bs} (h : rdNamedHeaderS bs = .ok (x, r)) : x.1 < 2^32 := by
  unfold rdNamedHeaderS at h
  split at h
  · simp at h
  · rename_i name r1 hb1 heq1
    split at h
    · simp at h
    · rename_i tb r2 hb2 heq2
      split at h
      · simp at h
      · simp only [Except.ok.injEq, Prod.mk.injEq] at h
        obtain ⟨h3, -⟩ := h
        subst h3
        exact rdU32S_bound heq1

theorem rdContainerHeaderS_bound {bs : List Nat} {x : BinValueType × Nat}
    {r : RemLt bs} (h : rdContainerHeaderS bs = .ok (x, r)) : x.2 < 2^32 := by
  unfold rdContainerHeaderS at h
  split at h
  · simp at h
  · rename_i tb r1 hb1 heq1
    split at h
    · simp at h
    · rename_i ty hu
      split at h
      · simp at h
      · rename_i sz r2 hb2 heq2
        split at h
        · simp at h
        · rename_i cnt r3 hb3 heq3
          simp only [Except.ok.injEq, Prod.mk.injEq] at h
          obtain ⟨h3, -⟩ := h
          subst h3
          exact rdU32S_bound heq3

theorem rdMapHeaderS_bound {bs : List Nat} {x : BinValueType × BinValueType × Nat}
    {r : RemLt bs} (h : rdMapHeaderS bs = .ok (x, r)) : x.2.2 < 2^32 := by
  unfold rdMapHeaderS at h
  split at h
  · simp at h
  · rename_i kb r1 hb1 heq1
    split at h
    · simp at h
    · rename_i kt hk
      split at h
      · simp at h
      · rename_i vb r2 hb2 heq2
        split at h
        · simp at h
        · rename_i vt hv
          split at h
          · simp at h
          · rename_i sz r3 hb3 heq3
            split at h
            · simp at h
            · rename_i cnt r4 hb4 heq4
              simp only [Except.ok.injEq, Prod.mk.injEq] at h
              obtain ⟨h5, -⟩ := h
              subst h5
              exact rdU32S_bound heq4

theorem rdStructHeaderS_none {bs : List Nat} {nm : Nat} {r : RemLt bs}
    (h : rdStructHeaderS bs = .ok ((nm, Option.none), r)) : nm = 0 := by
  unfold rdStructHeaderS at h
  split at h
  · simp at h
  · rename_i name r1 hb1 heq1
    split at h
    · simp only [Except.ok.injEq, Prod.mk.injEq] at h
      obtain ⟨h2, -⟩ := h
      rename_i h0
      obtain ⟨h3, -⟩ := h2
      omega
    · split at h
      · simp at h
      · rename_i sz r2 hb2 heq2
        split at h
        · simp at h
        · simp at h

theorem rdStructHeaderS_some {bs : List Nat} {nm cnt : Nat} {r : RemLt bs}
    (h : rdStructHeaderS bs = .ok ((nm, some cnt), r)) :
    nm ≠ 0 ∧ nm < 2^32 ∧ cnt < 2^16 := by
  unfold rdStructHeaderS at h
  split at h
  · simp at h
  · rename_i name r1 hb1 heq1
    split at h
    · simp at h
    · rename_i h0
      split at h
      · simp at h
      · rename_i sz r2 hb2 heq2
        split at h
        · simp at h
        · rename_i cnt2 r3 hb3 heq3
          simp only [Except.ok.injEq, Prod.mk.injEq, Option.some.injEq] at h
          obtain ⟨⟨h3, h4⟩, -⟩ := h
          subst h3 h4
          exact ⟨h0, rdU32S_bound heq1, rdU16S_bound heq3⟩

theorem insertPair_length (acc : List (BinValue × BinValue)) (k v : BinValue) :
    (insertPair acc k v).length ≤ acc.length + 1 := by
  unfold insertPair
  split
  · simp
  · simp

theorem wfPairList_map_replace {kt vt : BinValueType}
    {acc : List (BinValue × BinValue)} {k v : BinValue}
    (ha : wfPairList kt vt acc = true) (hv : wfValue v = true)
    (hvn : v.nameOf = 0) (hvt : v.valueTypeOf = vt) :
    wfPairList kt vt
      (acc.map (fun p => if beqValue p.1 k then (p.1, v) else p)) = true := by
  induction acc with
  | nil => rfl
  | cons a t ih =>
      obtain ⟨ak, av⟩ := a
      simp only [wfPairList, Bool.and_eq_true] at ha
      obtain ⟨⟨⟨⟨⟨⟨hk1, hk2⟩, hk3⟩, hv1⟩, hv2⟩, hv3⟩, ht⟩ := ha
      simp only [List.map_cons]
      by_cases hb : beqValue ak k
      · rw [if_pos hb]
        simp only [wfPairList, Bool.and_eq_true]
        refine ⟨⟨⟨⟨⟨⟨hk1, hk2⟩, hk3⟩, hv⟩, ?_⟩, ?_⟩, ih ht⟩
        · simp [hvn]
        · simp [hvt]
      · rw [if_neg hb]
        simp only [wfPairList, Bool.and_eq_true]
        exact ⟨⟨⟨⟨⟨⟨hk1, hk2⟩, hk3⟩, hv1⟩, hv2⟩, hv3⟩, ih ht⟩

theorem wfPairList_snoc {kt vt : BinValueType}
    {acc : List (BinValue × BinValue)} {k v : BinValue}
    (ha : wfPairList kt vt acc = true)
    (hk : wfValue k = true) (hkn : k.nameOf = 0) (hkt : k.valueTypeOf = kt)
    (hv : wfValue v = true) (hvn : v.nameOf = 0) (hvt : v.valueTypeOf = vt) :
    wfPairList kt vt (acc ++ [(k, v)]) = true := by
  induction acc with
  | nil =>
      simp only [List.nil_append, wfPairList, Bool.and_eq_true]
      refine ⟨⟨⟨⟨⟨⟨hk, ?_⟩, ?_⟩, hv⟩, ?_⟩, ?_⟩, trivial⟩
      · simp [hkn]
      · simp [hkt]
      · simp [hvn]
      · simp [hvt]
  | cons a t ih =>
      obtain ⟨ak, av⟩ := a
      simp only [wfPairList, Bool.and_eq_true] at ha
      obtain ⟨⟨⟨⟨⟨⟨hk1, hk2⟩, hk3⟩, hv1⟩, hv2⟩, hv3⟩, ht⟩ := ha
      simp only [List.cons_append, wfPairList, Bool.and_eq_true]
      exact ⟨⟨⟨⟨⟨⟨hk1, hk2⟩, hk3⟩, hv1⟩, hv2⟩, hv3⟩, ih ht⟩

theorem insertPair_wf {kt vt : BinValueType} {acc : List (BinValue × BinValue)}
    {k v : BinValue} (ha : wfPairList kt vt acc = true)
    (hk : wfValue k = true) (hkn : k.nameOf = 0) (hkt : k.valueTypeOf = kt)
    (hv : wfValue v = true) (hvn : v.nameOf = 0) (hvt : v.valueTypeOf = vt) :
    wfPairList kt vt (insertPair acc k v) = true := by
  unfold insertPair
  split
  · exact wfPairList_map_replace ha hv hvn hvt
  · exact wfPairList_snoc ha hk hkn hkt hv hvn hvt

theorem nodupKeys_map_replace {acc : List (BinValue × BinValue)}
    {k v : BinValue} (hnd : nodupKeys acc = true) :
    nodupKeys (acc.map (fun p => if beqValue p.1 k then (p.1, v) else p)) = true := by
  induction acc with
  | nil => rfl
  | cons a t ih =>
      obtain ⟨ak, av⟩ := a
      simp only [nodupKeys, Bool.and_eq_true, Bool.not_eq_true'] at hnd
      obtain ⟨h1, h2⟩ := hnd
      simp only [List.map_cons]
      have hkey : ∀ (p : BinValue × BinValue),
          ((fun p => if beqValue p.1 k then (p.1, v) else p) p).1 = p.1 := by
        intro p
        by_cases hb : beqValue p.1 k
        · simp [hb]
        · simp [hb]
      have hfirst : (if beqValue ak k then (ak, v) else (ak, av)).1 = ak := by
        by_cases hb : beqValue ak k
        · simp [hb]
        · simp [hb]
      simp only [nodupKeys, Bool.and_eq_true, Bool.not_eq_true']
      constructor
      · rw [List.any_map]
        have : ∀ q ∈ t, (beqValue (if beqValue ak k then (ak, v) else (ak, av)).1
            (((fun p => if beqValue p.1 k then (p.1, v) else p) q).1)) =
            beqValue ak q.1 := by
          intro q hq
          rw [hkey q, hfirst]
        have congrAny : ∀ (l : List (BinValue × BinValue))
            (f g : BinValue × BinValue → Bool),
            (∀ q ∈ l, f q = g q) → l.any f = l.any g := by
          intro l f g hfg
          induction l with
          | nil => rfl
          | cons x xs ih =>
              simp only [List.any_cons]
              rw [hfg x (List.mem_cons_self _ _),
                ih (fun q hq => hfg q (List.mem_cons_of_mem _ hq))]
        calc t.any (fun q => beqValue
              (if beqValue ak k then (ak, v) else (ak, av)).1
              (((fun p => if beqValue p.1 k then (p.1, v) else p) q).1))
            = t.any (fun q => beqValue ak q.1) := congrAny t _ _ this
          _ = false := h1
      · exact ih h2

theorem nodupKeys_snoc {acc : List (BinValue × BinValue)} {k v : BinValue}
    (hnd : nodupKeys acc = true)
    (hfresh : acc.any (fun p => beqValue p.1 k) = false) :
    nodupKeys (acc ++ [(k, v)]) = true := by
  induction acc with
  | nil => simp [nodupKeys]
  | cons a t ih =>
      obtain ⟨ak, av⟩ := a
      simp only [nodupKeys, Bool.and_eq_true, Bool.not_eq_true'] at hnd
      obtain ⟨h1, h2⟩ := hnd
      simp only [List.any_cons, Bool.or_eq_false_iff] at hfresh
      obtain ⟨hf1, hf2⟩ := hfresh
      simp only [List.cons_append, nodupKeys, Bool.and_eq_true, Bool.not_eq_true']
      constructor
      · simp [List.any_append, h1, hf1]
      · exact ih h2 hf2

theorem insertPair_nodup {acc : List (BinValue × BinValue)} {k v : BinValue}
    (hnd : nodupKeys acc = true) : nodupKeys (insertPair acc k v) = true := by
  unfold insertPair
  split
  · exact nodupKeys_map_replace hnd
  · rename_i hany
    exact nodupKeys_snoc hnd (Bool.eq_false_iff.mpr hany)

mutual
theorem rvbWf : ∀ (name : Nat) (ty : BinValueType) (bs : List Nat)
    (v : BinValue) (r : Rem bs), name < 2^32 →
    readValueBody name ty bs = .ok (v, r) →
    wfValue v = true ∧ v.nameOf = name ∧ v.valueTypeOf = ty
  | name, .none, bs, v, r, hn, h => by
      simp only [readValueBody] at h
      simp only [Except.ok.injEq, Prod.mk.injEq] at h
      obtain ⟨h1, -⟩ := h
      subst h1
      exact ⟨by simp [wfValue]; all_goals omega, rfl, rfl⟩
  | name, .boolean, bs, v, r, hn, h => by
      simp only [readValueBody] at h
      split at h
      · simp at h
      · rename_i b r' hlt heq
        simp only [Except.ok.injEq, Prod.mk.injEq] at h
        obtain ⟨h1, -⟩ := h
        subst h1
        exact ⟨by simp [wfValue]; all_goals omega, rfl, rfl⟩
  | name, .sbyte, bs, v, r, hn, h => by
      simp only [readValueBody] at h
      split at h
      · simp at h
      · rename_i b r' hlt heq
        simp only [Except.ok.injEq, Prod.mk.injEq] at h
        obtain ⟨h1, -⟩ := h
        subst h1
        exact ⟨by have hb := rdU8S_bound heq; simp [wfValue]; all_goals omega, rfl, rfl⟩
  | name, .byte, bs, v, r, hn, h => by
      simp only [readValueBody] at h
      split at h
      · simp at h
      · rename_i b r' hlt heq
        simp only [Except.ok.injEq, Prod.mk.injEq] at h
        obtain ⟨h1, -⟩ := h
        subst h1
        exact ⟨by have hb := rdU8S_bound heq; simp [wfValue]; all_goals omega, rfl, rfl⟩
  | name, .int16, bs, v, r, hn, h => by
      simp only [readValueBody] at h
      split at h
      · simp at h
      · rename_i w r' hlt heq
        simp only [Except.ok.injEq, Prod.mk.injEq] at h
        obtain ⟨h1, -⟩ := h
        subst h1
        exact ⟨by have hb := rdU16S_bound heq; simp [wfValue]; all_goals omega, rfl, rfl⟩
  | name, .uint16, bs, v, r, hn, h => by
      simp only [readValueBody] at h
      split at h
      · simp at h
      · rename_i w r' hlt heq
        simp only [Except.ok.injEq, Prod.mk.injEq] at h
        obtain ⟨h1, -⟩ := h
        subst h1
        exact ⟨by have hb := rdU16S_bound heq; simp [wfValue]; all_goals omega, rfl, rfl⟩
  | name, .int32, bs, v, r, hn, h => by
      simp only [readValueBody] at h
      split at h
      · simp at h
      · rename_i w r' hlt heq
        simp only [Except.ok.injEq, Prod.mk.injEq] at h
        obtain ⟨h1, -⟩ := h
        subst h1
        exact ⟨by have hb := rdU32S_bound heq; simp [wfValue]; all_goals omega, rfl, rfl⟩
  | name, .uint32, bs, v, r, hn, h => by
      simp only [readValueBody] at h
      split at h
      · simp at h
      · rename_i w r' hlt heq
        simp only [Except.ok.injEq, Prod.mk.injEq] at h
        obtain ⟨h1, -⟩ := h
        subst h1
        exact ⟨by have hb := rdU32S_bound heq; simp [wfValue]; all_goals omega, rfl, rfl⟩
  | name, .int64, bs, v, r, hn, h => by
      simp only [readValueBody] at h
      split at h
      · simp at h
      · rename_i w r' hlt heq
        simp only [Except.ok.injEq, Prod.mk.injEq] at h
        obtain ⟨h1, -⟩ := h
        subst h1
        exact ⟨by have hb := rdU64S_bound heq; simp [wfValue]; all_goals omega, rfl, rfl⟩
  | name, .uint64, bs, v, r, hn, h => by
      simp only [readValueBody] at h
      split at h
      · simp at h
      · rename_i w r' hlt heq
        simp only [Except.ok.injEq, Prod.mk.injEq] at h
        obtain ⟨h1, -⟩ := h
        subst h1
        exact ⟨by have hb := rdU64S_bound heq; simp [wfValue]; all_goals omega, rfl, rfl⟩
  | name, .float, bs, v, r, hn, h => by
      simp only [readValueBody] at h
      split at h
      · simp at h
      · rename_i w r' hlt heq
        simp only [Except.ok.injEq, Prod.mk.injEq] at h
        obtain ⟨h1, -⟩ := h
        subst h1
        exact ⟨by have hb := rdU32S_bound heq; simp [wfValue]; all_goals omega, rfl, rfl⟩
  | name, .vector2, bs, v, r, hn, h => by
      simp only [readValueBody] at h
      split at h
      · simp at h
      · rename_i w r' hlt heq
        simp only [Except.ok.injEq, Prod.mk.injEq] at h
        obtain ⟨h1, -⟩ := h
        subst h1
        exact ⟨by have hb := rdVec2S_bound heq; simp [wfValue]; all_goals omega, rfl, rfl⟩
  | name, .vector3, bs, v, r, hn, h => by
      simp only [readValueBody] at h
      split at h
      · simp at h
      · rename_i w r' hlt heq
        simp only [Except.ok.injEq, Prod.mk.injEq] at h
        obtain ⟨h1, -⟩ := h
        subst h1
        exact ⟨by have hb := rdVec3S_bound heq; simp [wfValue]; all_goals omega, rfl, rfl⟩
  | name, .vector4, bs, v, r, hn, h => by
      simp only [readValueBody] at h
      split at h
      · simp at h
      · rename_i w r' hlt heq
        simp only [Except.ok.injEq, Prod.mk.injEq] at h
        obtain ⟨h1, -⟩ := h
        subst h1
        exact ⟨by have hb := rdVec4S_bound heq; simp [wfValue]; all_goals omega, rfl, rfl⟩
  | name, .matrix44, bs, v, r, hn, h => by
      simp only [readValueBody] at h
      split at h
      · simp at h
      · rename_i w r' hlt heq
        simp only [Except.ok.injEq, Prod.mk.injEq] at h
        obtain ⟨h1, -⟩ := h
        subst h1
        exact ⟨by have hb := rdMat44S_bound heq; simp [wfValue]; all_goals omega, rfl, rfl⟩
  | name, .color, bs, v, r, hn, h => by
      simp only [readValueBody] at h
      split at h
      · simp at h
      · rename_i w r' hlt heq
        simp only [Except.ok.injEq, Prod.mk.injEq] at h
        obtain ⟨h1, -⟩ := h
        subst h1
        exact ⟨by have hb := rdColorS_bound heq; simp [wfValue]; all_goals omega, rfl, rfl⟩
  | name, .string, bs, v, r, hn, h => by
      simp only [readValueBody] at h
      split at h
      · simp at h
      · rename_i len r1 h1 heq1
        split at h
        · simp at h
        · rename_i s r2 h2 heq2
          simp only [Except.ok.injEq, Prod.mk.injEq] at h
          obtain ⟨hv, -⟩ := h
          subst hv
          obtain ⟨hl, hu⟩ := rdStringNS_spec heq2
          have hlb := rdU16S_bound heq1
          refine ⟨?_, rfl, rfl⟩
          simp only [wfValue, Bool.and_eq_true, decide_eq_true_eq]
          exact ⟨⟨hn, by omega⟩, hu⟩
  | name, .hash, bs, v, r, hn, h => by
      simp only [readValueBody] at h
      split at h
      · simp at h
      · rename_i w r' hlt heq
        simp only [Except.ok.injEq, Prod.mk.injEq] at h
        obtain ⟨h1, -⟩ := h
        subst h1
        exact ⟨by have hb := rdU32S_bound heq; simp [wfValue]; all_goals omega, rfl, rfl⟩
  | name, .container, bs, v, r, hn, h => by
      simp only [readValueBody] at h
      split at h
      · simp at h
      · rename_i ety cnt r1 h1 heq1
        split at h
        · simp at h
        · rename_i vs r2 h2 heq2
          simp only [Except.ok.injEq, Prod.mk.injEq] at h
          obtain ⟨hv, -⟩ := h
          subst hv
          obtain ⟨hwf, hlen⟩ := rblWf ety cnt r1 vs ⟨r2, h2⟩ heq2
          have hcnt : cnt < 2^32 := rdContainerHeaderS_bound heq1
          refine ⟨?_, rfl, rfl⟩
          simp only [wfValue, Bool.and_eq_true, decide_eq_true_eq]
          exact ⟨⟨hn, by omega⟩, hwf⟩
  | name, .container2, bs, v, r, hn, h => by
      simp only [readValueBody] at h
      split at h
      · simp at h
      · rename_i ety cnt r1 h1 heq1
        split at h
        · simp at h
        · rename_i vs r2 h2 heq2
          simp only [Except.ok.injEq, Prod.mk.injEq] at h
          obtain ⟨hv, -⟩ := h
          subst hv
          obtain ⟨hwf, hlen⟩ := rblWf ety cnt r1 vs ⟨r2, h2⟩ heq2
          have hcnt : cnt < 2^32 := rdContainerHeaderS_bound heq1
          refine ⟨?_, rfl, rfl⟩
          simp only [wfValue, Bool.and_eq_true, decide_eq_true_eq]
          exact ⟨⟨hn, by omega⟩, hwf⟩
  | name, .struct, bs, v, r, hn, h => by
      simp only [readValueBody] at h
      split at h
      · simp at h
      · rename_i nm r1 h1 heq1
        simp only [Except.ok.injEq, Prod.mk.injEq] at h
        obtain ⟨hv, -⟩ := h
        subst hv
        have h0 := rdStructHeaderS_none heq1
        subst h0
        exact ⟨by simp [wfValue, wfStruct]; all_goals omega, rfl, rfl⟩
      · rename_i nm cnt r1 h1 heq1
        split at h
        · simp at h
        · rename_i fields r2 h2 heq2
          simp only [Except.ok.injEq, Prod.mk.injEq] at h
          obtain ⟨hv, -⟩ := h
          subst hv
          obtain ⟨hne, hnm, hcnt⟩ := rdStructHeaderS_some heq1
          obtain ⟨hwf, hlen⟩ := rnlWf cnt r1 fields ⟨r2, h2⟩ heq2
          refine ⟨?_, rfl, rfl⟩
          simp only [wfValue, wfStruct, Bool.and_eq_true, decide_eq_true_eq]
          refine ⟨hn, hnm, ?_⟩
          rw [if_neg hne]
          simp only [Bool.and_eq_true, decide_eq_true_eq]
          exact ⟨by omega, hwf⟩
  | name, .embedded, bs, v, r, hn, h => by
      simp only [readValueBody] at h
      split at h
      · simp at h
      · rename_i nm r1 h1 heq1
        simp only [Except.ok.injEq, Prod.mk.injEq] at h
        obtain ⟨hv, -⟩ := h
        subst hv
        have h0 := rdStructHeaderS_none heq1
        subst h0
        exact ⟨by simp [wfValue, wfStruct]; all_goals omega, rfl, rfl⟩
      · rename_i nm cnt r1 h1 heq1
        split at h
        · simp at h
        · rename_i fields r2 h2 heq2
          simp only [Except.ok.injEq, Prod.mk.injEq] at h
          obtain ⟨hv, -⟩ := h
          subst hv
          obtain ⟨hne, hnm, hcnt⟩ := rdStructHeaderS_some heq1
          obtain ⟨hwf, hlen⟩ := rnlWf cnt r1 fields ⟨r2, h2⟩ heq2
          refine ⟨?_, rfl, rfl⟩
          simp only [wfValue, wfStruct, Bool.and_eq_true, decide_eq_true_eq]
          refine ⟨hn, hnm, ?_⟩
          rw [if_neg hne]
          simp only [Bool.and_eq_true, decide_eq_true_eq]
          exact ⟨by omega, hwf⟩
  | name, .link, bs, v, r, hn, h => by
      simp only [readValueBody] at h
      split at h
      · simp at h
      · rename_i w r' hlt heq
        simp only [Except.ok.injEq, Prod.mk.injEq] at h
        obtain ⟨h1, -⟩ := h
        subst h1
        exact ⟨by have hb := rdU32S_bound heq; simp [wfValue]; all_goals omega, rfl, rfl⟩
  | name, .optional, bs, v, r, hn, h => by
      simp only [readValueBody] at h
      split at h
      · simp at h
      · rename_i vt r1 h1 heq1
        split at h
        · simp at h
        · rename_i o r2 h2 heq2
          simp only [Except.ok.injEq, Prod.mk.injEq] at h
          obtain ⟨hv, -⟩ := h
          subst hv
          obtain ⟨hwo, hon, hot⟩ := rvbWf 0 vt r1 o ⟨r2, h2⟩ (by omega) heq2
          refine ⟨?_, rfl, rfl⟩
          simp only [wfValue, Bool.and_eq_true, decide_eq_true_eq]
          exact ⟨hn, by simp [hwo, hon, hot]⟩
      · rename_i vt r1 h1 heq1
        simp only [Except.ok.injEq, Prod.mk.injEq] at h
        obtain ⟨hv, -⟩ := h
        subst hv
        exact ⟨by simp [wfValue]; all_goals omega, rfl, rfl⟩
  | name, .map, bs, v, r, hn, h => by
      simp only [readValueBody] at h
      split at h
      · simp at h
      · rename_i kt vt cnt r1 h1 heq1
        split at h
        · simp at h
        · rename_i es r2 h2 heq2
          simp only [Except.ok.injEq, Prod.mk.injEq] at h
          obtain ⟨hv, -⟩ := h
          subst hv
          have hcnt : cnt < 2^32 := rdMapHeaderS_bound heq1
          obtain ⟨hwf, hnd, hlen⟩ := rplWf kt vt cnt [] r1 es ⟨r2, h2⟩ rfl rfl heq2
          refine ⟨?_, rfl, rfl⟩
          simp only [wfValue, Bool.and_eq_true, decide_eq_true_eq]
          refine ⟨⟨⟨hn, ?_⟩, hwf⟩, hnd⟩
          simp only [List.length_nil, Nat.zero_add] at hlen
          omega
  | name, .flagsBoolean, bs, v, r, hn, h => by
      simp only [readValueBody] at h
      split at h
      · simp at h
      · rename_i b r' hlt heq
        simp only [Except.ok.injEq, Prod.mk.injEq] at h
        obtain ⟨h1, -⟩ := h
        subst h1
        exact ⟨by simp [wfValue]; all_goals omega, rfl, rfl⟩
termination_by _ _ bs _ _ _ _ => (bs.length, 1)
decreasing_by
all_goals
  first
  | exact lexLt (by omega)
  | exact lexLe (by omega) (by omega)

theorem rnvWf : ∀ (bs : List Nat) (v : BinValue) (r : Rem bs),
    readNamedValue bs = .ok (v, r) → wfValue v = true
  | bs, v, r, h => by
      simp only [readNamedValue] at h
      split at h
      · simp at h
      · rename_i name ty r1 h1 heq1
        split at h
        · simp at h
        · rename_i w r2 h2 heq2
          simp only [Except.ok.injEq, Prod.mk.injEq] at h
          obtain ⟨hv, -⟩ := h
          subst hv
          have hnb : name < 2^32 := rdNamedHeaderS_bound heq1
          exact (rvbWf name ty r1 w ⟨r2, h2⟩ hnb heq2).1
termination_by bs _ _ _ => (bs.length, 2)
decreasing_by
all_goals
  first
  | exact lexLt (by omega)
  | exact lexLe (by omega) (by omega)

theorem rnlWf : ∀ (cnt : Nat) (bs : List Nat) (vs : List BinValue) (r : Rem bs),
    readNamedList cnt bs = .ok (vs, r) →
    wfNamedList vs = true ∧ vs.length = cnt
  | 0, bs, vs, r, h => by
      simp only [readNamedList] at h
      simp only [Except.ok.injEq, Prod.mk.injEq] at h
      obtain ⟨hv, -⟩ := h
      subst hv
      exact ⟨rfl, rfl⟩
  | c + 1, bs, vs, r, h => by
      simp only [readNamedList] at h
      split at h
      · simp at h
      · rename_i v r1 h1 heq1
        split at h
        · simp at h
        · rename_i tl r2 h2 heq2
          simp only [Except.ok.injEq, Prod.mk.injEq] at h
          obtain ⟨hv, -⟩ := h
          subst hv
          have hw := rnvWf bs v ⟨r1, h1⟩ heq1
          obtain ⟨hwl, hlen⟩ := rnlWf c r1 tl ⟨r2, h2⟩ heq2
          refine ⟨?_, by simp [hlen]⟩
          simp only [wfNamedList, Bool.and_eq_true]
          exact ⟨hw, hwl⟩
termination_by cnt bs _ _ _ => (bs.length, cnt + 3)
decreasing_by
all_goals
  first
  | exact lexLt (by omega)
  | exact lexLe (by omega) (by omega)

theorem rblWf : ∀ (ty : BinValueType) (cnt : Nat) (bs : List Nat)
    (vs : List BinValue) (r : Rem bs),
    readBareList ty cnt bs = .ok (vs, r) →
    wfBareList ty vs = true ∧ vs.length = cnt
  | ty, 0, bs, vs, r, h => by
      simp only [readBareList] at h
      simp only [Except.ok.injEq, Prod.mk.injEq] at h
      obtain ⟨hv, -⟩ := h
      subst hv
      exact ⟨rfl, rfl⟩
  | ty, c + 1, bs, vs, r, h => by
      simp only [readBareList] at h
      split at h
      · simp at h
      · rename_i v r1 h1 heq1
        split at h
        · simp at h
        · rename_i tl r2 h2 heq2
          simp only [Except.ok.injEq, Prod.mk.injEq] at h
          obtain ⟨hv, -⟩ := h
          subst hv
          obtain ⟨hw, hn0, hty⟩ := rvbWf 0 ty bs v ⟨r1, h1⟩ (by omega) heq1
          obtain ⟨hwl, hlen⟩ := rblWf ty c r1 tl ⟨r2, h2⟩ heq2
          refine ⟨?_, by simp [hlen]⟩
          simp only [wfBareList, Bool.and_eq_true, beq_iff_eq]
          exact ⟨⟨⟨hw, hn0⟩, hty⟩, hwl⟩
termination_by _ cnt bs _ _ _ => (bs.length, cnt + 3)
decreasing_by
all_goals
  first
  | exact lexLt (by omega)
  | exact lexLe (by omega) (by omega)

theorem rplWf : ∀ (kt vt : BinValueType) (cnt : Nat)
    (acc : List (BinValue × BinValue)) (bs : List Nat)
    (es : List (BinValue × BinValue)) (r : Rem bs),
    wfPairList kt vt acc = true → nodupKeys acc = true →
    readPairList kt vt cnt acc bs = .ok (es, r) →
    wfPairList kt vt es = true ∧ nodupKeys es = true
      ∧ es.length ≤ acc.length + cnt
  | kt, vt, 0, acc, bs, es, r, ha, hd, h => by
      simp only [readPairList] at h
      simp only [Except.ok.injEq, Prod.mk.injEq] at h
      obtain ⟨hv, -⟩ := h
      subst hv
      exact ⟨ha, hd, by omega⟩
  | kt, vt, c + 1, acc, bs, es, r, ha, hd, h => by
      simp only [readPairList] at h
      split at h
      · simp at h
      · rename_i k r1 h1 heq1
        split at h
        · simp at h
        · rename_i v r2 h2 heq2
          split at h
          · simp at h
          · rename_i tl r3 h3 heq3
            simp only [Except.ok.injEq, Prod.mk.injEq] at h
            obtain ⟨hv, -⟩ := h
            subst hv
            obtain ⟨hkw, hkn, hkt⟩ := rvbWf 0 kt bs k ⟨r1, h1⟩ (by omega) heq1
            obtain ⟨hvw, hvn, hvt⟩ := rvbWf 0 vt r1 v ⟨r2, h2⟩ (by omega) heq2
            obtain ⟨hw, hn, hl⟩ := rplWf kt vt c (insertPair acc k v) r2 tl
              ⟨r3, h3⟩
              (insertPair_wf ha hkw hkn hkt hvw hvn hvt)
              (insertPair_nodup hd) heq3
            have hip := insertPair_length acc k v
            exact ⟨hw, hn, by omega⟩
termination_by _ _ cnt _ bs _ _ _ _ _ => (bs.length, cnt + 3)
decreasing_by
all_goals
  first
  | exact lexLt (by omega)
  | exact lexLe (by omega) (by omega)
end

theorem rdU16_bound {bs r : List Nat} {v : Nat} (h : rdU16 bs = .ok (v, r)) :
    v < 2^16 := by
  unfold rdU16 at h
  split at h
  · simp only [Except.ok.injEq, Prod.mk.injEq] at h
    obtain ⟨h1, -⟩ := h
    subst h1
    omega
  · simp at h

theorem rdU32_bound {bs r : List Nat} {v : Nat} (h : rdU32 bs = .ok (v, r)) :
    v < 2^32 := by
  unfold rdU32 at h
  split at h
  · simp only [Except.ok.injEq, Prod.mk.injEq] at h
    obtain ⟨h1, -⟩ := h
    subst h1
    omega
  · simp at h

theorem rdStringN_spec {n : Nat} {bs s r : List Nat}
    (h : rdStringN n bs = .ok (s, r)) : s.length = n ∧ utf8Valid s = true := by
  unfold rdStringN at h
  cases hb : rdBytes n bs with
  | error e => rw [hb] at h; simp at h
  | ok p =>
    obtain ⟨s2, r2⟩ := p
    rw [hb] at h
    dsimp only at h
    split at h
    · rename_i hu
      simp only [Except.ok.injEq, Prod.mk.injEq] at h
      obtain ⟨h1, -⟩ := h
      subst h1
      refine ⟨?_, hu⟩
      unfold rdBytes at hb
      split at hb
      · simp only [Except.ok.injEq, Prod.mk.injEq] at hb
        obtain ⟨h2, -⟩ := hb
        subst h2
        simp [List.length_take]
        omega
      · simp at hb
    · simp at h

/-- Reading the magic bytes back. -/
theorem rdStringN_magic {rest : List Nat} :
    rdStringN 4 (propMagic ++ rest) = .ok (propMagic, rest) :=
  @rdStringN_exact propMagic rest (by decide)

/-- Writing then reading a well-formed entry with the caller-supplied
class id recovers it exactly; the declared size is read and discarded. -/
theorem rwEntry (e : BinEntry) (rest : List Nat) (hw : wfEntry e = true) :
    binEntryRead e.cls (binEntryWrite e ++ rest) = .ok (e, rest) := by
  simp only [wfEntry, Bool.and_eq_true, decide_eq_true_eq] at hw
  obtain ⟨⟨⟨hc, hp⟩, hl⟩, hv⟩ := hw
  have hlist := rwNamedList e.values rest hv
  simp only [binEntryWrite, List.append_assoc]
  unfold binEntryRead
  simp [rdU32_u32LE_mod, rdU32_u32LE hp, rdU16_u16LE hl, hlist]

/-- Writing then reading the dependency list recovers it exactly. -/
theorem rwDeps : ∀ (ds : List (List Nat)) (rest : List Nat),
    ds.all (fun d => decide (d.length < 2^16) && utf8Valid d) = true →
    readDeps ds.length (writeDeps ds ++ rest) = .ok (ds, rest)
  | [], rest, _ => by simp [readDeps, writeDeps]
  | d :: ds, rest, h => by
      simp only [List.all_cons, Bool.and_eq_true, decide_eq_true_eq] at h
      obtain ⟨⟨hl, hu⟩, ht⟩ := h
      have ih := rwDeps ds rest ht
      simp only [List.length_cons, writeDeps, List.append_assoc]
      simp [readDeps, rdU16_u16LE hl, rdStringN_exact hu, ih]

/-- Writing then reading the class-id array recovers the ids in order. -/
theorem rwClasses : ∀ (es : List BinEntry) (rest : List Nat),
    es.all wfEntry = true →
    readClasses es.length (writeClasses es ++ rest)
      = .ok (es.map (fun e => e.cls), rest)
  | [], rest, _ => by simp [readClasses, writeClasses]
  | e :: es, rest, h => by
      simp only [List.all_cons, Bool.and_eq_true] at h
      obtain ⟨he, ht⟩ := h
      have hcls : e.cls < 2^32 := by
        simp only [wfEntry, Bool.and_eq_true, decide_eq_true_eq] at he
        exact he.1.1.1
      have ih := rwClasses es rest ht
      simp only [List.length_cons, writeClasses, List.append_assoc, List.map_cons]
      simp [readClasses, rdU32_u32LE hcls, ih]

/-- Writing then reading the entry bodies against the written class ids
recovers the entries in order. -/
theorem rwEntries : ∀ (es : List BinEntry) (rest : List Nat),
    es.all wfEntry = true →
    readEntriesFor (es.map (fun e => e.cls)) (writeEntries es ++ rest)
      = .ok (es, rest)
  | [], rest, _ => by simp [readEntriesFor, writeEntries]
  | e :: es, rest, h => by
      simp only [List.all_cons, Bool.and_eq_true] at h
      obtain ⟨he, ht⟩ := h
      have h1 := rwEntry e (writeEntries es ++ rest) he
      have ih := rwEntries es rest ht
      simp only [List.map_cons, writeEntries, List.append_assoc]
      simp [readEntriesFor, h1, ih]

/-- Writing then reading a well-formed tree recovers it exactly and
consumes the whole stream. -/
theorem rwTree (t : BinTree) (hw : wfTree t = true) :
    binTreeRead (binTreeWrite t) = .ok (t, []) := by
  simp only [wfTree, Bool.and_eq_true, decide_eq_true_eq] at hw
  obtain ⟨⟨⟨hdl, hda⟩, hel⟩, hea⟩ := hw
  have hdeps := rwDeps t.dependencies
    (u32LE t.entries.length ++ (writeClasses t.entries ++ writeEntries t.entries))
    hda
  have hcls := rwClasses t.entries (writeEntries t.entries) hea
  have hent := rwEntries t.entries [] hea
  simp only [List.append_nil] at hent
  simp only [binTreeWrite, List.append_assoc]
  unfold binTreeRead
  simp [rdStringN_magic, readDepsSection, rdU32_u32LE (show (2:Nat) < 2^32 by omega),
    rdU32_u32LE hdl, rdU32_u32LE hel, hdeps, hcls, hent]

theorem binEntryRead_wf {cls : Nat} {bs : List Nat} {e : BinEntry} {r : List Nat}
    (hc : cls < 2^32) (h : binEntryRead cls bs = .ok (e, r)) :
    wfEntry e = true := by
  unfold binEntryRead at h
  split at h
  · simp at h
  · rename_i sz r1 heq1
    split at h
    · simp at h
    · rename_i path r2 heq2
      split at h
      · simp at h
      · rename_i cnt r3 heq3
        split at h
        · simp at h
        · rename_i vals r4 heq4
          simp only [Except.ok.injEq, Prod.mk.injEq] at h
          obtain ⟨hv, -⟩ := h
          subst hv
          have hpath := rdU32_bound heq2
          have hcnt := rdU16_bound heq3
          rw [readNamedListP_ok_iff] at heq4
          obtain ⟨pf, heq4⟩ := heq4
          obtain ⟨hwl, hlen⟩ := rnlWf cnt r3 vals ⟨r4, pf⟩ heq4
          simp only [wfEntry, Bool.and_eq_true, decide_eq_true_eq]
          exact ⟨⟨⟨hc, hpath⟩, by omega⟩, hwl⟩

theorem readDeps_wf : ∀ (cnt : Nat) (bs : List Nat) (ds : List (List Nat))
    (r : List Nat), readDeps cnt bs = .ok (ds, r) →
    ds.all (fun d => decide (d.length < 2^16) && utf8Valid d) = true
      ∧ ds.length = cnt
  | 0, bs, ds, r, h => by
      simp only [readDeps] at h
      simp only [Except.ok.injEq, Prod.mk.injEq] at h
      obtain ⟨hv, -⟩ := h
      subst hv
      exact ⟨rfl, rfl⟩
  | c + 1, bs, ds, r, h => by
      simp only [readDeps] at h
      split at h
      · simp at h
      · rename_i len r1 heq1
        split at h
        · simp at h
        · rename_i s r2 heq2
          split at h
          · simp at h
          · rename_i tl r3 heq3
            simp only [Except.ok.injEq, Prod.mk.injEq] at h
            obtain ⟨hv, -⟩ := h
            subst hv
            have hlen := rdU16_bound heq1
            obtain ⟨hsl, hsu⟩ := rdStringN_spec heq2
            obtain ⟨iha, ihl⟩ := readDeps_wf c r2 tl r3 heq3
            refine ⟨?_, by simp [ihl]⟩
            simp only [List.all_cons, Bool.and_eq_true, decide_eq_true_eq]
            exact ⟨⟨by omega, hsu⟩, iha⟩

theorem readClasses_spec : ∀ (cnt : Nat) (bs : List Nat) (cs : List Nat)
    (r : List Nat), readClasses cnt bs = .ok (cs, r) →
    cs.all (fun c => decide (c < 2^32)) = true ∧ cs.length = cnt
  | 0, bs, cs, r, h => by
      simp only [readClasses] at h
      simp only [Except.ok.injEq, Prod.mk.injEq] at h
      obtain ⟨hv, -⟩ := h
      subst hv
      exact ⟨rfl, rfl⟩
  | c + 1, bs, cs, r, h => by
      simp only [readClasses] at h
      split at h
      · simp at h
      · rename_i cls r1 heq1
        split at h
        · simp at h
        · rename_i tl r2 heq2
          simp only [Except.ok.injEq, Prod.mk.injEq] at h
          obtain ⟨hv, -⟩ := h
          subst hv
          have hb := rdU32_bound heq1
          obtain ⟨iha, ihl⟩ := readClasses_spec c r1 tl r2 heq2
          refine ⟨?_, by simp [ihl]⟩
          simp only [List.all_cons, Bool.and_eq_true, decide_eq_true_eq]
          exact ⟨hb, iha⟩

theorem readEntriesFor_wf : ∀ (classes : List Nat) (bs : List Nat)
    (es : List BinEntry) (r : List Nat),
    classes.all (fun c => decide (c < 2^32)) = true →
    readEntriesFor classes bs = .ok (es, r) →
    es.all wfEntry = true ∧ es.length = classes.length
  | [], bs, es, r, _, h => by
      simp only [readEntriesFor] at h
      simp only [Except.ok.injEq, Prod.mk.injEq] at h
      obtain ⟨hv, -⟩ := h
      subst hv
      exact ⟨rfl, rfl⟩
  | c :: cs, bs, es, r, hall, h => by
      simp only [List.all_cons, Bool.and_eq_true, decide_eq_true_eq] at hall
      obtain ⟨hc, hcs⟩ := hall
      simp only [readEntriesFor] at h
      split at h
      · simp at h
      · rename_i e1 r1 heq1
        split at h
        · simp at h
        · rename_i tl r2 heq2
          simp only [Except.ok.injEq, Prod.mk.injEq] at h
          obtain ⟨hv, -⟩ := h
          subst hv
          have he := binEntryRead_wf hc heq1
          obtain ⟨iha, ihl⟩ := readEntriesFor_wf cs r1 tl r2 hcs heq2
          refine ⟨?_, by simp [ihl]⟩
          simp only [List.all_cons, Bool.and_eq_true]
          exact ⟨he, iha⟩

theorem readDepsSection_wf {version : Nat} {bs : List Nat}
    {ds : List (List Nat)} {r : List Nat}
    (h : readDepsSection version bs = .ok (ds, r)) :
    ds.all (fun d => decide (d.length < 2^16) && utf8Valid d) = true
      ∧ ds.length < 2^32 := by
  unfold readDepsSection at h
  split at h
  · split at h
    · simp at h
    · rename_i depCount r1 heq1
      have hb := rdU32_bound heq1
      obtain ⟨ha, hl⟩ := readDeps_wf depCount r1 ds r h
      exact ⟨ha, by omega⟩
  · simp only [Except.ok.injEq, Prod.mk.injEq] at h
    obtain ⟨hv, -⟩ := h
    subst hv
    exact ⟨rfl, by simp⟩

/-- Every tree `BinReader::read_tree` produces is well-formed. -/
theorem binTreeRead_wf {bs : List Nat} {t : BinTree} {r : List Nat}
    (h : binTreeRead bs = .ok (t, r)) : wfTree t = true := by
  unfold binTreeRead at h
  split at h
  · simp at h
  · rename_i magic r1 heq1
    split at h
    · simp at h
    · split at h
      · simp at h
      · rename_i version r2 heq2
        split at h
        · simp at h
        · split at h
          · simp at h
          · rename_i deps r4 heq4
            split at h
            · simp at h
            · rename_i ec r5 heq5
              split at h
              · simp at h
              · rename_i classes r6 heq6
                split at h
                · simp at h
                · rename_i es r7 heq7
                  simp only [Except.ok.injEq, Prod.mk.injEq] at h
                  obtain ⟨hv, -⟩ := h
                  subst hv
                  obtain ⟨hda, hdl⟩ := readDepsSection_wf heq4
                  have hec := rdU32_bound heq5
                  obtain ⟨hca, hcl⟩ := readClasses_spec ec r5 classes r6 heq6
                  obtain ⟨hea, hel⟩ := readEntriesFor_wf classes r6 es r7 hca heq7
                  simp only [wfTree, Bool.and_eq_true, decide_eq_true_eq]
                  exact ⟨⟨⟨hdl, hda⟩, by omega⟩, hea⟩

/-- `BinStructure::content_size` equals 2 plus the sum of the fields'
`size(false)` (the "encodedSize with header" of the spec). -/
theorem structContentSize_eq_sum : ∀ (fs : List BinValue),
    structContentSize fs = 2 + sumNamedSizes fs
  | [] => rfl
  | f :: fs => by
      have ih := structContentSize_eq_sum fs
      simp only [structContentSize, sumNamedSizes]
      omega

/-- The end-to-end example of the spec: a tree with the single dependency
"DependencyModule" (as UTF-8 bytes) and one entry (class 0x1234, path
0x5678) holding a named Int32 (name 1, value 42) and a named String
(name 2, "abc"). -/
def exTree : BinTree :=
  { dependencies := [[68, 101, 112, 101, 110, 100, 101, 110, 99, 121,
                      77, 111, 100, 117, 108, 101]],
    entries := [{ cls := 0x1234, path := 0x5678,
                  values := [.int32 1 42, .string 2 [97, 98, 99]] }] }

/-- A map whose key kind (Float32, bit pattern of 1.0f) is not one of the
hashable kinds. -/
def floatKeyMap : BinMap :=
  .mk .float .int32 [(.float 0 1065353216, .int32 0 1)]

set_option maxHeartbeats 4000000 in
/-- The `.string` arm of the derived equality: equal names and equal raw
bytes (case-sensitive). -/
theorem beqValue_string (n1 n2 : Nat) (s1 s2 : List Nat) :
    beqValue (.string n1 s1) (.string n2 s2) = (n1 == n2 && s1 == s2) := by
  rw [beqValue.eq_def]

/-- C1: every byte stream that `BinReader::read_tree` decodes successfully
into a tree `t` round-trips: encoding `t` with `BinWriter::write_tree` and
decoding the result returns `t` itself (on-the-nose equality of the
dependency list and of every entry's class, path and value list, map
entries included in their stored order — stronger than the claimed
value-equality up to map iteration order) and consumes the whole stream. -/
theorem c1_tree_roundtrip (bs : List Nat) (t : BinTree) (r : List Nat)
    (h : binTreeRead bs = .ok (t, r)) :
    binTreeRead (binTreeWrite t) = .ok (t, []) :=
  rwTree t (binTreeRead_wf h)

set_option maxHeartbeats 4000000 in
/-- C1 witness: the spec's worked example, decoded from its own encoding. -/
theorem c1_tree_roundtrip_witness :
    binTreeRead (binTreeWrite exTree) = .ok (exTree, []) :=
  c1_tree_roundtrip (binTreeWrite exTree) exTree []
    (rwTree exTree (by
      simp only [exTree, wfTree, wfEntry, List.all_cons, List.all_nil,
        wfNamedList.eq_def, wfValue.eq_def]
      all_goals decide))

/-- C2: for every node and each header flag, `BinValue::size` returns
exactly the number of bytes the corresponding encode emits:
`size(false)` the length of `BinValue::write` (name, tag, payload) and
`size(true)` the length of `BinValue::write_value` (bare payload). -/
theorem c2_size_exact (v : BinValue) :
    (writeNamedValue v).length = binValueSize v false
      ∧ (writeBareValue v).length = binValueSize v true := by
  refine ⟨?_, ?_⟩
  · rw [writeNamed_len]
    simp [binValueSize]
  · rw [writeBare_len]
    simp [binValueSize]

/-- C3: for each of the 26 value kinds, `unpack_value_type` inverts
`pack_value_type`, and packing maps discriminants 0-17 to themselves and
18-25 to `(k - 18) + 128`. -/
theorem c3_tag_roundtrip (k : BinValueType) :
    unpackValueType (packValueType k) = .ok k
      ∧ packValueType k
          = (if k.toU8 < 18 then k.toU8 else k.toU8 - 18 + 128) := by
  cases k <;> exact ⟨rfl, rfl⟩

/-- C4: counterexample to the claimed recoverable InvalidTag error — byte
200 unpacks (clear the top bit, add 18) to index 90, outside 0-25, and
`unpack_value_type` panics through `.expect("Invalid Value type")` (a
process abort, modeled as a fatal non-recoverable outcome), instead of
returning a recoverable decode error. -/
theorem c4_invalid_tag_counterexample :
    unpackValueType 200 = .error (.fatal "Invalid Value type")
      ∧ BinErr.isRecoverable (.fatal "Invalid Value type") = false :=
  ⟨rfl, rfl⟩

/-- C4 amended: for every byte whose unpacked index (clear the top bit
and add 18 when the top bit is set, else the byte itself) falls outside
0-25, `unpack_value_type` panics via `.expect` — a fatal, non-recoverable
abort of the whole process — rather than returning a recoverable
InvalidTag error value. -/
theorem c4_invalid_tag_fatal (b : Nat)
    (h : 26 ≤ (if 128 ≤ b % 256 then b % 256 - 128 + 18 else b % 256)) :
    unpackValueType b = .error (.fatal "Invalid Value type")
      ∧ BinErr.isRecoverable (.fatal "Invalid Value type") = false := by
  obtain ⟨m, hm⟩ : ∃ m,
      (if 128 ≤ b % 256 then b % 256 - 128 + 18 else b % 256) = m + 26 :=
    ⟨(if 128 ≤ b % 256 then b % 256 - 128 + 18 else b % 256) - 26, by omega⟩
  have hf : BinValueType.fromU8
      (if 128 ≤ b % 256 then b % 256 - 128 + 18 else b % 256) = Option.none := by
    rw [hm]
    rfl
  refine ⟨?_, rfl⟩
  unfold unpackValueType
  simp only [hf]

/-- C4 witness: the amended statement at the byte 200. -/
theorem c4_invalid_tag_fatal_witness :
    unpackValueType 200 = .error (.fatal "Invalid Value type")
      ∧ BinErr.isRecoverable (.fatal "Invalid Value type") = false :=
  c4_invalid_tag_fatal 200 (by decide)

/-- C5: counterexample to case-insensitive String-key hashing and
comparison — the String keys "Foo" and "foo" (bytes [70,111,111] and
[102,111,111]) do hash alike, but they compare UNEQUAL under the derived
(case-sensitive, byte-exact) equality, so inserting both leaves two
distinct map slots instead of colliding them into one. -/
theorem c5_case_insensitive_counterexample :
    hashBytes (.string 0 [70, 111, 111]) = hashBytes (.string 0 [102, 111, 111])
      ∧ beqValue (.string 0 [70, 111, 111]) (.string 0 [102, 111, 111]) = false
      ∧ insertPair [((.string 0 [70, 111, 111] : BinValue),
                     (.int32 0 1 : BinValue))]
          (.string 0 [102, 111, 111]) (.int32 0 2)
        = [((.string 0 [70, 111, 111] : BinValue), (.int32 0 1 : BinValue)),
           ((.string 0 [102, 111, 111] : BinValue), (.int32 0 2 : BinValue))] := by
  have hb : beqValue (.string 0 [70, 111, 111]) (.string 0 [102, 111, 111])
      = false := by
    rw [beqValue_string]
    decide
  refine ⟨rfl, hb, ?_⟩
  unfold insertPair
  simp [hb]

/-- C5 amended: String-key hashing ignores the string text altogether —
`write_string_lc` builds a lazy lowercase iterator that is never
consumed, so no payload byte reaches the hasher and any two String keys
with the same name hash alike, case-related or not — while equality is
the derived byte-exact (case-sensitive) comparison. -/
theorem c5_string_key_hash_and_eq (n : Nat) (s1 s2 : List Nat) :
    hashBytes (.string n s1) = hashBytes (.string n s2)
      ∧ beqValue (.string n s1) (.string n s2) = (s1 == s2) := by
  constructor
  · simp [hashBytes, writeStringLcBytes]
  · rw [beqValue_string]
    simp

set_option maxHeartbeats 4000000 in
/-- C6: counterexample to the claimed UnsupportedMapKey rejection — a map
keyed by Float32 (not a hashable kind) is decoded successfully by
`BinMap::read` (and its encoding is the bytes `BinMap::write` emits);
the float key's hash degrades to the single catch-all byte 0 instead of
any error. -/
theorem c6_float_key_map_accepted :
    hashableKind .float = false
      ∧ hashBytes (.float 0 1065353216) = [0]
      ∧ binMapRead (writeMap floatKeyMap) = .ok (floatKeyMap, []) := by
  refine ⟨rfl, rfl, ?_⟩
  have hwp : wfPairList floatKeyMap.keyType floatKeyMap.valueType
      floatKeyMap.entries = true := by
    simp only [floatKeyMap, BinMap.keyType, BinMap.valueType, BinMap.entries,
      wfPairList.eq_def, wfValue.eq_def, BinValue.nameOf, BinValue.valueTypeOf]
    all_goals decide
  have hnd : nodupKeys floatKeyMap.entries = true := by decide
  have h := rwMap floatKeyMap [] hwp hnd (by decide)
  simpa using h

/-- C6 amended: there is no UnsupportedMapKey error anywhere — the `Hash`
implementation's catch-all arm (`_ => state.write_u8(0)`, commented
"Hack") feeds the single byte 0 for every value of a non-hashable kind,
so such keys are accepted with degraded (always-colliding) hashing on
both decode and encode. -/
theorem c6_nonhashable_key_degraded (v : BinValue)
    (h : hashableKind v.valueTypeOf = false) : hashBytes v = [0] := by
  cases v <;>
    first
      | rfl
      | simp [BinValue.valueTypeOf, hashableKind] at h

/-- C6 witness: the amended statement at a Float32 value. -/
theorem c6_nonhashable_key_degraded_witness :
    hashBytes (.float 3 1065353216) = [0] :=
  c6_nonhashable_key_degraded (.float 3 1065353216) rfl

/-- C7: a Structure (or Embedded payload, which shares `BinStructure`)
with the sentinel name 0 encodes to exactly the 4 zero name bytes, has
size 4, and those bytes decode back to name 0 with an empty field list;
with a nonzero name the encoding is the 4-byte name, a 4-byte content
size equal to 2 plus the sum of the fields' headered sizes, a 2-byte
field count, then the named fields, and the total size is 4 + 4 plus the
content size. -/
theorem c7_structure_layout (s : BinStructure) (rest : List Nat) :
    (s.name = 0 →
       writeStructure s = [0, 0, 0, 0] ∧ structSize s = 4 ∧
       binStructureRead (writeStructure s ++ rest) = .ok (.mk 0 [], rest)) ∧
    (s.name ≠ 0 →
       writeStructure s
         = u32LE s.name ++ u32LE (structContentSize s.fields)
           ++ u16LE s.fields.length ++ writeNamedList s.fields ∧
       structContentSize s.fields = 2 + sumNamedSizes s.fields ∧
       structSize s = 4 + 4 + structContentSize s.fields) := by
  obtain ⟨nm, fields⟩ := s
  simp only [BinStructure.name, BinStructure.fields]
  constructor
  · intro h0
    subst h0
    have hws : writeStructure (.mk 0 fields) = [0, 0, 0, 0] := by
      simp [writeStructure, u32LE]
    refine ⟨hws, rfl, ?_⟩
    rw [hws]
    rfl
  · intro h0
    refine ⟨?_, structContentSize_eq_sum fields, ?_⟩
    · simp [writeStructure, h0, List.append_assoc]
    · simp [structSize, h0]

/-- C8: if the stream ends before all 4 bytes of a Float32 payload are
available, `BinValue::read_value` fails with the truncated-input error
(`UnexpectedEof`) and never returns a value built from the partial
bytes. -/
theorem c8_float_truncated (name : Nat) (bs : List Nat) (h : bs.length < 4) :
    binValueReadValue name .float bs = .error .eof := by
  have h32 : rdU32S bs = .error .eof := by
    unfold rdU32S
    split
    · rename_i b0 b1 b2 b3 r
      simp only [List.length_cons] at h
      omega
    · rfl
  unfold binValueReadValue
  simp [readValueBody, h32]

/-- C8 witness: a Float32 payload cut to 3 bytes. -/
theorem c8_float_truncated_witness :
    binValueReadValue 7 .float [1, 2, 3] = .error .eof :=
  c8_float_truncated 7 [1, 2, 3] (by decide)

/-- C9: the 4-byte declared size at the start of an entry body is
advisory — `BinEntry::read` returns the same result on any two streams
that differ only in those 4 bytes, for every class id, size field and
remainder; nothing compares the declared size to the bytes consumed. -/
theorem c9_entry_size_advisory (cls : Nat) (s1 s2 rest : List Nat)
    (h1 : s1.length = 4) (h2 : s2.length = 4) :
    binEntryRead cls (s1 ++ rest) = binEntryRead cls (s2 ++ rest) := by
  obtain ⟨a0, a1, a2, a3, rfl⟩ : ∃ x0 x1 x2 x3, s1 = [x0, x1, x2, x3] := by
    cases s1 with
    | nil => simp at h1
    | cons x0 t0 =>
      cases t0 with
      | nil => simp at h1
      | cons x1 t1 =>
        cases t1 with
        | nil => simp at h1
        | cons x2 t2 =>
          cases t2 with
          | nil => simp at h1
          | cons x3 t3 =>
            cases t3 with
            | nil => exact ⟨x0, x1, x2, x3, rfl⟩
            | cons x4 t4 => simp at h1
  obtain ⟨b0, b1, b2, b3, rfl⟩ : ∃ x0 x1 x2 x3, s2 = [x0, x1, x2, x3] := by
    cases s2 with
    | nil => simp at h2
    | cons x0 t0 =>
      cases t0 with
      | nil => simp at h2
      | cons x1 t1 =>
        cases t1 with
        | nil => simp at h2
        | cons x2 t2 =>
          cases t2 with
          | nil => simp at h2
          | cons x3 t3 =>
            cases t3 with
            | nil => exact ⟨x0, x1, x2, x3, rfl⟩
            | cons x4 t4 => simp at h2
  rfl

/-- C9 witness: the declared sizes 0 and 0xFFFFFFFF give one result on a
minimal well-formed entry body. -/
theorem c9_entry_size_advisory_witness :
    binEntryRead 1 ([0, 0, 0, 0] ++ [120, 86, 0, 0, 0, 0])
      = binEntryRead 1 ([255, 255, 255, 255] ++ [120, 86, 0, 0, 0, 0]) :=
  c9_entry_size_advisory 1 [0, 0, 0, 0] [255, 255, 255, 255]
    [120, 86, 0, 0, 0, 0] rfl rfl

/-- C10: a `BinStructure` whose name is 0 writes only the 4 zero name
bytes and reports size 4 no matter what fields it holds — the fields of
a name-0 structure are silently dropped by `BinStructure::write`, and
decoding its output yields an empty field list. -/
theorem c10_name0_struct_drops_fields (fields : List BinValue) :
    writeStructure (.mk 0 fields) = [0, 0, 0, 0]
      ∧ structSize (.mk 0 fields) = 4
      ∧ binStructureRead (writeStructure (.mk 0 fields)) = .ok (.mk 0 [], []) := by
  have hws : writeStructure (.mk 0 fields) = [0, 0, 0, 0] := by
    simp [writeStructure, u32LE]
  refine ⟨hws, rfl, ?_⟩
  rw [hws]
  rfl
